import Mathlib

/-!
Shallow embedding of the xiovoice signaling server (src/server.js, first
revision: the one with the rate & abuse guard, CSRF tokens and the
empty-room sweep).

Modelling conventions:
* JS `Map`s become association lists `List (String × β)` with JS semantics:
  `set` replaces in place when the key is present (keeping insertion order)
  and appends otherwise, `delete` removes the key, iteration is in list
  order.  JS `Set`s of strings become `List String` with duplicate-free
  insertion.
* `Date.now()` becomes an explicit `now : Nat` argument.
* `setTimeout(fn, ms)` deletions become entries in explicit pending-timer
  queues `(key, deadline)`; a timer whose deadline has been reached fires
  when time is advanced (`fireTimers`).
* `uuidv4()` results are passed in as explicit `fresh`/`token` arguments
  (the randomness is external input); their value space is modelled
  separately by `UUIDv4` below.
* `ws.send` becomes an outbox `List (String × OutMsg)` of
  (target connection id, message) pairs; `ws.readyState === OPEN` is
  modelled by the target still being present in the `clients` registry
  (a closed transport is unregistered by its close event).
-/

namespace XioVoice

/-- `RATE_LIMIT_WINDOW = 60000` (src/server.js line 15). -/
def RATE_LIMIT_WINDOW : Nat := 60000

/-- `RATE_LIMIT_MAX_REQUESTS = 3` (line 16). -/
def RATE_LIMIT_MAX_REQUESTS : Nat := 3

/-- `MAX_ROOMS = 5` (line 17). -/
def MAX_ROOMS : Nat := 5

/-- `EMPTY_ROOM_TIMEOUT = 10 * 60 * 1000` (line 18). -/
def EMPTY_ROOM_TIMEOUT : Nat := 10 * 60 * 1000

/-- `GLOBAL_ROOM_LIMIT_WINDOW = 3600000` (line 20). -/
def GLOBAL_ROOM_LIMIT_WINDOW : Nat := 3600000

/-- `GLOBAL_MAX_ROOMS_PER_HOUR = 10` (line 21). -/
def GLOBAL_MAX_ROOMS_PER_HOUR : Nat := 10

/-- `CSRF_TOKEN_LIFETIME = 300000` (line 25). -/
def CSRF_TOKEN_LIFETIME : Nat := 300000

/-- The literal `3600000` in `setTimeout(() => suspiciousIPs.delete(ip), 3600000)`
    (line 58): how long a block-listed address stays blocked. -/
def SUSPICIOUS_BLOCK_MS : Nat := 3600000

/-- The literal `1000` in `if (tokenAge < 1000)` (line 138): minimum token age. -/
def MIN_TOKEN_AGE : Nat := 1000

/-- The literal `200` in `if (room.messages.length > 200)` (line 339). -/
def CHAT_LOG_HARD_CAP : Nat := 200

/-- The literal `100` in `room.messages.slice(-100)` (line 340). -/
def CHAT_LOG_TRIM_TO : Nat := 100

/-! ### JS `Map` as an association list -/

/-- `Map.prototype.get`. -/
def mapGet {β : Type} (m : List (String × β)) (k : String) : Option β :=
  (m.find? (fun p => p.1 == k)).map (fun p => p.2)

/-- `Map.prototype.has`. -/
def hasKey {β : Type} (m : List (String × β)) (k : String) : Bool :=
  m.any (fun p => p.1 == k)

/-- `Map.prototype.set`: replace in place when present, append otherwise. -/
def mapSet {β : Type} (m : List (String × β)) (k : String) (v : β) :
    List (String × β) :=
  if hasKey m k then m.map (fun p => if p.1 == k then (k, v) else p)
  else m ++ [(k, v)]

/-- `Map.prototype.delete`. -/
def mapDelete {β : Type} (m : List (String × β)) (k : String) :
    List (String × β) :=
  m.filter (fun p => !(p.1 == k))

/-- The list of keys, in insertion order. -/
def keysOf {β : Type} (m : List (String × β)) : List String :=
  m.map (fun p => p.1)

/-- `Array.from(map.values())`, in insertion order. -/
def valsOf {β : Type} (m : List (String × β)) : List β :=
  m.map (fun p => p.2)

/-- `arr.slice(-n)` for `n > 0`: the last `n` elements (all of them when the
    array is shorter). -/
def lastSlice {β : Type} (n : Nat) (l : List β) : List β :=
  l.drop (l.length - n)

/-! ### Data model -/

/-- A participant record as built in the join-room handler (lines 288-296). -/
structure Participant where
  id : String
  nickname : String
  userKey : String
  joinedAt : Nat
  isMuted : Bool
  isDeafened : Bool
  isScreenSharing : Bool
  deriving DecidableEq, Repr

/-- A chat message as built in the chat-message handler (lines 329-336).
    `senderName` is `client.nickname`, which is `null` until the client has
    joined a room, hence `Option`. -/
structure ChatMessage where
  id : String
  senderId : String
  senderName : Option String
  content : String
  image : Option String
  timestamp : Nat
  deriving DecidableEq, Repr

/-- A room record as built in the create-room handler (lines 183-190).
    `lastEmptyTime` is nullable (`null` while occupied), hence `Option`. -/
structure Room where
  id : String
  adminKey : String
  createdAt : Nat
  lastEmptyTime : Option Nat
  participants : List (String × Participant)
  messages : List ChatMessage
  deriving DecidableEq, Repr

/-- A connection-registry entry as built on `wss.on('connection')` (line 229);
    `nickname`, `roomId`, `userKey` start as `null` and are filled on join.
    The live transport handle is boundary state and is not modelled. -/
structure ClientEntry where
  roomId : Option String
  nickname : Option String
  userKey : Option String
  deriving DecidableEq, Repr

/-- A rate-limit record (line 47). -/
structure RateRecord where
  count : Nat
  resetTime : Nat
  deriving DecidableEq, Repr

/-- A CSRF token record (line 108). -/
structure TokenData where
  ip : String
  createdAt : Nat
  deriving DecidableEq, Repr

/-- The request metadata consulted by `isValidRequest` (lines 66-70);
    a missing header is the empty string, as in the JS `|| ''` defaults. -/
structure ReqHeaders where
  userAgent : String
  origin : String
  secFetchSite : String
  secFetchMode : String
  deriving DecidableEq, Repr

/-- The whole mutable server state: the module-level `rooms`, `clients`,
    `rateLimit`, `suspiciousIPs`, `csrfTokens`, `globalRoomCreations`
    registries (lines 11-27) plus the pending `setTimeout` deletions for
    `suspiciousIPs` (line 58) and `csrfTokens` (line 110). -/
structure ServerState where
  rooms : List (String × Room)
  clients : List (String × ClientEntry)
  rateLimit : List (String × RateRecord)
  suspiciousIPs : List String
  suspTimers : List (String × Nat)
  csrfTokens : List (String × TokenData)
  csrfTimers : List (String × Nat)
  globalRoomCreations : List Nat
  deriving DecidableEq, Repr

/-! ### Rate & abuse guard -/

/-- Whether the character list `pat` occurs at the head of `s`. -/
def leadsWith : List Char → List Char → Bool
  | [], _ => true
  | _ :: _, [] => false
  | p :: ps, c :: cs => p == c && leadsWith ps cs

/-- Whether the character list `pat` occurs anywhere in `s`. -/
def containsChars (s pat : List Char) : Bool :=
  match s with
  | [] => leadsWith pat []
  | c :: tl => leadsWith pat (c :: tl) || containsChars tl pat

/-- JS `String.prototype.includes`. -/
def strContains (s pat : String) : Bool :=
  containsChars s.toList pat.toList

/-- `validBrowsers` (line 72). -/
def validBrowsers : List String :=
  ["Mozilla", "Chrome", "Safari", "Firefox", "Edge", "Opera"]

/-- `isValidRequest(req)` (lines 66-81). -/
def isValidRequest (h : ReqHeaders) : Bool :=
  let hasValidUA := validBrowsers.any (fun b => strContains h.userAgent b)
  let validOrigin := strContains h.origin "xiovoice.onrender.com" ||
                     strContains h.origin "localhost"
  let validSecFetch := h.secFetchSite == "same-origin" && h.secFetchMode == "cors"
  hasValidUA && validOrigin && validSecFetch

/-- `checkRateLimit(ip)` (lines 38-64).  The promotion branch both adds `ip`
    to `suspiciousIPs` and schedules its deletion `SUSPICIOUS_BLOCK_MS` later
    (the `setTimeout` on line 58, modelled as a pending timer). -/
def checkRateLimit (now : Nat) (ip : String) (st : ServerState) :
    Bool × ServerState :=
  if ip ∈ st.suspiciousIPs then (false, st)
  else
    match mapGet st.rateLimit ip with
    | none =>
        let freshRecord : RateRecord := { count := 1, resetTime := now + RATE_LIMIT_WINDOW }
        (true, { st with rateLimit := mapSet st.rateLimit ip freshRecord })
    | some record =>
        if record.resetTime < now then
          let freshRecord : RateRecord := { count := 1, resetTime := now + RATE_LIMIT_WINDOW }
          (true, { st with rateLimit := mapSet st.rateLimit ip freshRecord })
        else if RATE_LIMIT_MAX_REQUESTS ≤ record.count then
          (false, { st with
                    suspiciousIPs := st.suspiciousIPs ++ [ip],
                    suspTimers := st.suspTimers ++ [(ip, now + SUSPICIOUS_BLOCK_MS)] })
        else
          let bumped : RateRecord := { record with count := record.count + 1 }
          (true, { st with rateLimit := mapSet st.rateLimit ip bumped })

/-- The rate-record eviction sweep (lines 83-90). -/
def rateLimitSweep (now : Nat) (st : ServerState) : ServerState :=
  { st with rateLimit := st.rateLimit.filter (fun p => !(p.2.resetTime < now)) }

/-- Advancing wall-clock time to `now` fires every pending `setTimeout`
    deletion whose deadline has been reached: the suspicious-IP deletions
    (line 58) and the CSRF-token deletions (line 110). -/
def fireTimers (now : Nat) (st : ServerState) : ServerState :=
  { st with
    suspiciousIPs := st.suspiciousIPs.filter
      (fun ip => !(st.suspTimers.any (fun q => q.1 == ip && q.2 ≤ now))),
    suspTimers := st.suspTimers.filter (fun q => !(q.2 ≤ now)),
    csrfTokens := st.csrfTokens.filter
      (fun p => !(st.csrfTimers.any (fun q => q.1 == p.1 && q.2 ≤ now))),
    csrfTimers := st.csrfTimers.filter (fun q => !(q.2 ≤ now)) }

/-- The `/api/csrf-token` endpoint (lines 105-113): stores the token with the
    requesting address and issue time and schedules its own deletion. -/
def issueCsrfToken (now : Nat) (ip token : String) (st : ServerState) :
    ServerState :=
  { st with
    csrfTokens := mapSet st.csrfTokens token { ip := ip, createdAt := now },
    csrfTimers := st.csrfTimers ++ [(token, now + CSRF_TOKEN_LIFETIME)] }

/-- `suspiciousIPs.add(ip)` (lines 139 and 147): JS `Set.add`, with no
    deletion timer scheduled on these paths. -/
def addSuspicious (ip : String) (st : ServerState) : ServerState :=
  if ip ∈ st.suspiciousIPs then st
  else { st with suspiciousIPs := st.suspiciousIPs ++ [ip] }

/-- The outcome of `POST /api/create-room`. -/
inductive CreateOutcome where
  | invalidToken
  | tokenExpired
  | tooFast
  | forbidden
  | tooManyRequests
  | roomLimitReached
  | globalLimitReached
  | created (roomId adminKey : String)
  deriving DecidableEq, Repr

/-- The `POST /api/create-room` handler (lines 115-193).  `csrfToken` is the
    `x-csrf-token` header (`none` when absent; the empty string is falsy in
    JS, so it is rejected before the store lookup).  `newRoomId` and
    `newAdminKey` stand for `uuidv4().slice(0, 8)` and `uuidv4().slice(0, 12)`. -/
def createRoomHandler (now : Nat) (ip : String) (csrfToken : Option String)
    (hdrs : ReqHeaders) (newRoomId newAdminKey : String) (st : ServerState) :
    CreateOutcome × ServerState :=
  match csrfToken with
  | none => (.invalidToken, st)
  | some tok =>
    if tok == "" then (.invalidToken, st)
    else
      match mapGet st.csrfTokens tok with
      | none => (.invalidToken, st)
      | some tokenData =>
        let st1 := { st with csrfTokens := mapDelete st.csrfTokens tok }
        let tokenAge := now - tokenData.createdAt
        if CSRF_TOKEN_LIFETIME < tokenAge then (.tokenExpired, st1)
        else if tokenAge < MIN_TOKEN_AGE then (.tooFast, addSuspicious ip st1)
        else if !(isValidRequest hdrs) then (.forbidden, addSuspicious ip st1)
        else
          let res := checkRateLimit now ip st1
          if !res.1 then (.tooManyRequests, res.2)
          else
            let st2 := res.2
            if MAX_ROOMS ≤ st2.rooms.length then (.roomLimitReached, st2)
            else
              let recent := st2.globalRoomCreations.filter
                (fun t => now - t < GLOBAL_ROOM_LIMIT_WINDOW)
              if GLOBAL_MAX_ROOMS_PER_HOUR ≤ recent.length then
                (.globalLimitReached, { st2 with globalRoomCreations := recent })
              else
                let room : Room :=
                  { id := newRoomId, adminKey := newAdminKey, createdAt := now,
                    lastEmptyTime := some now, participants := [], messages := [] }
                (.created newRoomId newAdminKey,
                 { st2 with
                   globalRoomCreations := recent ++ [now],
                   rooms := mapSet st2.rooms newRoomId room })

/-! ### WebSocket protocol handler -/

/-- The outbound message types built by the handlers; every `ws.send` payload
    becomes a constructor carrying exactly the non-constant fields. -/
inductive OutMsg where
  | connected (clientId : String)
  | errorMsg (text : String)
  | joined (roomId userKey : String) (participants : List Participant)
      (messages : List ChatMessage)
  | userJoined (id nickname userKey : String)
  | participantsUpdate (participants : List Participant)
  | chatMessage (m : ChatMessage)
  | userLeft (clientId : String) (nickname : Option String)
  | webrtcOffer (senderId : String) (senderName : Option String) (offer : String)
  | webrtcAnswer (senderId : String) (answer : String)
  | webrtcIceCandidate (senderId : String) (candidate : String)
  | userMuteChanged (clientId : String) (isMuted : Bool)
  | userDeafenChanged (clientId : String) (isDeafened : Bool)
  | screenShareOn (clientId : String) (nickname : Option String)
  | screenShareOff (clientId : String)
  | screenRequested (requesterId : String)
  deriving DecidableEq, Repr

/-- The inbound message types dispatched by `handleMessage`'s `switch`
    (lines 273-452); `unrecognized` stands for any other `type` value. -/
inductive InMsg where
  | joinRoom (roomId nickname : String)
  | chatMessage (roomId content : String) (image : Option String)
  | webrtcOffer (targetId offer : String)
  | webrtcAnswer (targetId answer : String)
  | webrtcIceCandidate (targetId candidate : String)
  | toggleMute (isMuted : Bool)
  | toggleDeafen (isDeafened : Bool)
  | screenShareOn
  | screenShareOff
  | requestScreen (targetId : String)
  | unrecognized
  deriving DecidableEq, Repr

/-- `sendToClient(clientId, message)` (lines 220-225): emits to the target
    only when it is registered (and its transport open, see the module
    comment). -/
def sendToClientOut (st : ServerState) (clientId : String) (msg : OutMsg) :
    List (String × OutMsg) :=
  match mapGet st.clients clientId with
  | some _ => [(clientId, msg)]
  | none => []

/-- `broadcast(roomId, message, excludeClientId)` (lines 206-218): iterates
    the room's participants in insertion order and emits to each one that is
    still registered, skipping the excluded id. -/
def broadcastOut (st : ServerState) (roomId : String) (msg : OutMsg)
    (excludeClientId : Option String) : List (String × OutMsg) :=
  match mapGet st.rooms roomId with
  | none => []
  | some room =>
    room.participants.filterMap (fun p =>
      if excludeClientId = some p.1 then none
      else
        match mapGet st.clients p.1 with
        | some _ => some (p.1, msg)
        | none => none)

/-- The participant record built at join (lines 288-296). -/
def mkParticipant (cid nickname userKey : String) (now : Nat) : Participant :=
  { id := cid, nickname := nickname, userKey := userKey, joinedAt := now,
    isMuted := false, isDeafened := false, isScreenSharing := false }

/-- The chat message record built at send (lines 329-336); `fresh` stands for
    `uuidv4()`. -/
def mkChatMessage (fresh cid : String) (senderName : Option String)
    (content : String) (image : Option String) (now : Nat) : ChatMessage :=
  { id := fresh, senderId := cid, senderName := senderName, content := content,
    image := image, timestamp := now }

/-- `handleMessage(clientId, message)` (lines 269-453).  `fresh` stands for
    the `uuidv4()` drawn inside the handler (the per-join `userKey` or the
    chat-message id); `now` is `Date.now()`.  Returns the new state and the
    outbox of sends. -/
def handleMessage (clientId : String) (msg : InMsg) (fresh : String) (now : Nat)
    (st : ServerState) : ServerState × List (String × OutMsg) :=
  match mapGet st.clients clientId with
  | none => (st, [])
  | some client =>
    match msg with
    | .joinRoom roomId nickname =>
      match mapGet st.rooms roomId with
      | none => (st, sendToClientOut st clientId (.errorMsg "Комната не найдена"))
      | some room =>
        let userKey := fresh
        let client' : ClientEntry :=
          { roomId := some roomId, nickname := some nickname, userKey := some userKey }
        let room' : Room :=
          { room with
            participants := mapSet room.participants clientId
              (mkParticipant clientId nickname userKey now),
            lastEmptyTime := none }
        let st' : ServerState :=
          { st with
            clients := mapSet st.clients clientId client',
            rooms := mapSet st.rooms roomId room' }
        (st',
          sendToClientOut st' clientId
            (.joined roomId userKey (valsOf room'.participants)
              (lastSlice 50 room'.messages))
          ++ broadcastOut st' roomId (.userJoined clientId nickname userKey)
              (some clientId)
          ++ broadcastOut st' roomId
              (.participantsUpdate (valsOf room'.participants)) none)
    | .chatMessage roomId content image =>
      match mapGet st.rooms roomId with
      | none => (st, [])
      | some room =>
        let cm := mkChatMessage fresh clientId client.nickname content image now
        let pushed := room.messages ++ [cm]
        let msgs' := if CHAT_LOG_HARD_CAP < pushed.length
                     then lastSlice CHAT_LOG_TRIM_TO pushed else pushed
        let room' : Room := { room with messages := msgs' }
        let st' : ServerState := { st with rooms := mapSet st.rooms roomId room' }
        (st', broadcastOut st' roomId (.chatMessage cm) none)
    | .webrtcOffer targetId offer =>
      (st, sendToClientOut st targetId (.webrtcOffer clientId client.nickname offer))
    | .webrtcAnswer targetId answer =>
      (st, sendToClientOut st targetId (.webrtcAnswer clientId answer))
    | .webrtcIceCandidate targetId candidate =>
      (st, sendToClientOut st targetId (.webrtcIceCandidate clientId candidate))
    | .toggleMute isMuted =>
      match client.roomId with
      | none => (st, [])
      | some rid =>
        match mapGet st.rooms rid with
        | none => (st, [])
        | some room =>
          match mapGet room.participants clientId with
          | none => (st, [])
          | some participant =>
            let participant' : Participant := { participant with isMuted := isMuted }
            let room' : Room :=
              { room with participants := mapSet room.participants clientId participant' }
            let st' : ServerState := { st with rooms := mapSet st.rooms rid room' }
            (st', broadcastOut st' rid (.userMuteChanged clientId isMuted) none)
    | .toggleDeafen isDeafened =>
      match client.roomId with
      | none => (st, [])
      | some rid =>
        match mapGet st.rooms rid with
        | none => (st, [])
        | some room =>
          match mapGet room.participants clientId with
          | none => (st, [])
          | some participant =>
            let participant' : Participant := { participant with isDeafened := isDeafened }
            let room' : Room :=
              { room with participants := mapSet room.participants clientId participant' }
            let st' : ServerState := { st with rooms := mapSet st.rooms rid room' }
            (st', broadcastOut st' rid (.userDeafenChanged clientId isDeafened) none)
    | .screenShareOn =>
      match client.roomId with
      | none => (st, [])
      | some rid =>
        match mapGet st.rooms rid with
        | none => (st, [])
        | some room =>
          match mapGet room.participants clientId with
          | none => (st, [])
          | some participant =>
            let participant' : Participant := { participant with isScreenSharing := true }
            let room' : Room :=
              { room with participants := mapSet room.participants clientId participant' }
            let st' : ServerState := { st with rooms := mapSet st.rooms rid room' }
            (st', broadcastOut st' rid (.screenShareOn clientId client.nickname) none)
    | .screenShareOff =>
      match client.roomId with
      | none => (st, [])
      | some rid =>
        match mapGet st.rooms rid with
        | none => (st, [])
        | some room =>
          match mapGet room.participants clientId with
          | none => (st, [])
          | some participant =>
            let participant' : Participant := { participant with isScreenSharing := false }
            let room' : Room :=
              { room with participants := mapSet room.participants clientId participant' }
            let st' : ServerState := { st with rooms := mapSet st.rooms rid room' }
            (st', broadcastOut st' rid (.screenShareOff clientId) none)
    | .requestScreen targetId =>
      (st, sendToClientOut st targetId (.screenRequested clientId))
    | .unrecognized => (st, [])

/-- `wss.on('connection')` (lines 227-231): registers a fresh connection id
    with empty bindings and acknowledges it. -/
def connectClient (clientId : String) (st : ServerState) :
    ServerState × List (String × OutMsg) :=
  let entry : ClientEntry := { roomId := none, nickname := none, userKey := none }
  ({ st with clients := mapSet st.clients clientId entry },
   [(clientId, .connected clientId)])

/-- `ws.on('close')` (lines 242-266): removes the participant from its bound
    room if any, stamps the room's empty time when it became empty, broadcasts
    the departure and a roster refresh, then unregisters the connection. -/
def handleClose (clientId : String) (now : Nat) (st : ServerState) :
    ServerState × List (String × OutMsg) :=
  match mapGet st.clients clientId with
  | none => ({ st with clients := mapDelete st.clients clientId }, [])
  | some client =>
    match client.roomId with
    | none => ({ st with clients := mapDelete st.clients clientId }, [])
    | some rid =>
      match mapGet st.rooms rid with
      | none => ({ st with clients := mapDelete st.clients clientId }, [])
      | some room =>
        let parts' := mapDelete room.participants clientId
        let room' : Room :=
          { room with
            participants := parts',
            lastEmptyTime := if parts'.length = 0 then some now
                             else room.lastEmptyTime }
        let st1 : ServerState := { st with rooms := mapSet st.rooms rid room' }
        let out := broadcastOut st1 rid (.userLeft clientId client.nickname) none
          ++ broadcastOut st1 rid (.participantsUpdate (valsOf parts')) none
        ({ st1 with clients := mapDelete st1.clients clientId }, out)

/-- The empty-room sweep (lines 455-465): deletes every room that has had
    zero participants since a (truthy, i.e. non-null and non-zero)
    `lastEmptyTime` more than `EMPTY_ROOM_TIMEOUT` ago. -/
def sweepRooms (now : Nat) (st : ServerState) : ServerState :=
  { st with rooms := st.rooms.filter (fun p =>
      !(p.2.participants.length == 0 &&
        (match p.2.lastEmptyTime with
         | none => false
         | some t => !(t == 0) && decide (EMPTY_ROOM_TIMEOUT < now - t)))) }

/-! ### The identifier value space (line 180-181)

`roomId = uuidv4().slice(0, 8)` and `adminKey = uuidv4().slice(0, 12)`.
A version-4 UUID prints as 32 hexadecimal digits with hyphens inserted after
digits 8, 12, 16 and 20 (string positions 8, 13, 18, 23); digit 12 is the
fixed version nibble `4`, digit 16 carries the variant (top bits `10`, so it
ranges over 8..b), and the remaining 30 digits are random.  Hence
`slice(0, 8)` is digits 0-7 (8 free hex digits) and `slice(0, 12)` is digits
0-10 plus the fixed hyphen at position 8 (11 free hex digits). -/

/-- The random content of a version-4 UUID: its 30 free hex digits plus the
    2 free bits of the variant digit. -/
structure UUIDv4 where
  rand : Fin 30 → Fin 16
  variantLow : Fin 4
  deriving DecidableEq

/-- The 32 hexadecimal digits of a version-4 UUID. -/
def uuidDigit (u : UUIDv4) (i : Fin 32) : Fin 16 :=
  if h : i.val < 12 then u.rand ⟨i.val, by omega⟩
  else if i.val = 12 then ⟨4, by omega⟩
  else if h2 : i.val < 16 then u.rand ⟨i.val - 1, by omega⟩
  else if i.val = 16 then ⟨8 + u.variantLow.val, by have := u.variantLow.isLt; omega⟩
  else u.rand ⟨i.val - 2, by have := i.isLt; omega⟩

/-- `uuidv4().slice(0, 8)` (the room id, line 180): string positions 0-7 are
    uuid digits 0-7. -/
def roomIdOf (u : UUIDv4) : Fin 8 → Fin 16 :=
  fun i => uuidDigit u ⟨i.val, by have := i.isLt; omega⟩

/-- `uuidv4().slice(0, 12)` (the admin key, line 181): string positions 0-11
    are uuid digits 0-7, a fixed hyphen, then uuid digits 8-10 — 11 free hex
    digits in total. -/
def adminKeyOf (u : UUIDv4) : Fin 11 → Fin 16 :=
  fun i => uuidDigit u ⟨i.val, by have := i.isLt; omega⟩

/-! ### Event machinery -/

/-- The transport/protocol events that touch one room's membership: a new
    connection, a join-room message for the room, a transport close. -/
inductive RoomEvent where
  | connect (cid : String)
  | join (cid nickname fresh : String) (now : Nat)
  | disconnect (cid : String) (now : Nat)
  deriving DecidableEq, Repr

/-- Dispatch of a `RoomEvent` targeting room `R`. -/
def stepRoomEvent (R : String) (st : ServerState) :
    RoomEvent → ServerState × List (String × OutMsg)
  | .connect cid => connectClient cid st
  | .join cid nickname fresh now => handleMessage cid (.joinRoom R nickname) fresh now st
  | .disconnect cid now => handleClose cid now st

/-- Connection ids are generated by `uuidv4()` at connect time (line 228), so
    a connect event never reuses a registered id. -/
def goodEvent (st : ServerState) : RoomEvent → Prop
  | .connect cid => mapGet st.clients cid = none
  | .join _ _ _ _ => True
  | .disconnect _ _ => True

/-- The guard-touching events: a `checkRateLimit` call, the rate-record
    sweep, wall-clock advance (firing `setTimeout` deletions), a create-room
    request, a token issue. -/
inductive GuardEvent where
  | check (ip : String) (now : Nat)
  | sweep (now : Nat)
  | advance (now : Nat)
  | create (now : Nat) (ip : String) (csrfToken : Option String)
      (hdrs : ReqHeaders) (newRoomId newAdminKey : String)
  | issue (now : Nat) (ip token : String)
  deriving Repr

/-- The wall-clock time at which a guard event happens. -/
def guardEventTime : GuardEvent → Nat
  | .check _ now => now
  | .sweep now => now
  | .advance now => now
  | .create now _ _ _ _ _ => now
  | .issue now _ _ => now

/-- State effect of one guard event. -/
def applyGuardEvent (st : ServerState) : GuardEvent → ServerState
  | .check ip now => (checkRateLimit now ip st).2
  | .sweep now => rateLimitSweep now st
  | .advance now => fireTimers now st
  | .create now ip tok hdrs rid akey => (createRoomHandler now ip tok hdrs rid akey st).2
  | .issue now ip token => issueCsrfToken now ip token st

/-- Running a sequence of guard events. -/
def runGuard (st : ServerState) : List GuardEvent → ServerState
  | [] => st
  | e :: rest => runGuard (applyGuardEvent st e) rest

/-! ### Association-list lemmas -/

@[simp]
theorem mapGet_nil {β : Type} (k : String) : mapGet ([] : List (String × β)) k = none :=
  rfl

theorem mapGet_cons {β : Type} (a : String) (b : β) (tl : List (String × β))
    (k : String) :
    mapGet ((a, b) :: tl) k = if a == k then some b else mapGet tl k := by
  simp only [mapGet, List.find?_cons]
  cases h : (a == k) <;> simp [h]

theorem mapGet_append {β : Type} (m1 m2 : List (String × β)) (k : String) :
    mapGet (m1 ++ m2) k = (mapGet m1 k).or (mapGet m2 k) := by
  induction m1 with
  | nil => simp
  | cons hd tl ih =>
    obtain ⟨a, b⟩ := hd
    rw [List.cons_append, mapGet_cons, mapGet_cons]
    cases h : (a == k) <;> simp [ih]

theorem hasKey_false_mapGet {β : Type} {m : List (String × β)} {k : String}
    (h : hasKey m k = false) : mapGet m k = none := by
  induction m with
  | nil => simp
  | cons hd tl ih =>
    obtain ⟨a, b⟩ := hd
    simp only [hasKey, List.any_cons, Bool.or_eq_false_iff] at h
    rw [mapGet_cons, h.1]
    exact ih (by simpa [hasKey] using h.2)

theorem mapGet_of_map_branch_self {β : Type} (m : List (String × β)) (k : String)
    (v : β) :
    mapGet (m.map (fun p => if p.1 == k then (k, v) else p)) k =
      if hasKey m k then some v else none := by
  induction m with
  | nil => simp [hasKey]
  | cons hd tl ih =>
    obtain ⟨a, b⟩ := hd
    rw [List.map_cons]
    by_cases h : a = k
    · have hb : ((a, b).1 == k) = true := by simp [h]
      have hkk : hasKey ((a, b) :: tl) k = true := by simp [hasKey, h]
      rw [if_pos hb, mapGet_cons, if_pos (by simp : (k == k) = true), if_pos hkk]
    · have hb : ¬ (((a, b).1 == k) = true) := by simp [h]
      have hb2 : ¬ ((a == k) = true) := by simp [h]
      have hkk : hasKey ((a, b) :: tl) k = hasKey tl k := by
        simp [hasKey, List.any_cons, h]
      rw [if_neg hb, mapGet_cons, if_neg hb2, ih, hkk]

theorem mapGet_of_map_branch_ne {β : Type} (m : List (String × β)) (k k' : String)
    (v : β) (hne : k' ≠ k) :
    mapGet (m.map (fun p => if p.1 == k then (k, v) else p)) k' = mapGet m k' := by
  induction m with
  | nil => simp
  | cons hd tl ih =>
    obtain ⟨a, b⟩ := hd
    rw [List.map_cons]
    by_cases h : a = k
    · have hb : ((a, b).1 == k) = true := by simp [h]
      have hk' : ¬ ((k == k') = true) := by simpa using fun hc => hne hc.symm
      have hak : ¬ ((a == k') = true) := by
        simpa [h] using fun hc => hne hc.symm
      rw [if_pos hb, mapGet_cons, if_neg hk', mapGet_cons, if_neg hak, ih]
    · have hb : ¬ (((a, b).1 == k) = true) := by simp [h]
      rw [if_neg hb, mapGet_cons, mapGet_cons, ih]

@[simp]
theorem mapGet_set_self {β : Type} (m : List (String × β)) (k : String) (v : β) :
    mapGet (mapSet m k v) k = some v := by
  unfold mapSet
  by_cases h : hasKey m k = true
  · rw [if_pos h, mapGet_of_map_branch_self, if_pos h]
  · rw [if_neg h, mapGet_append,
      hasKey_false_mapGet (by simpa using h)]
    simp [mapGet_cons]

theorem mapGet_set_ne {β : Type} (m : List (String × β)) (k k' : String) (v : β)
    (hne : k' ≠ k) : mapGet (mapSet m k v) k' = mapGet m k' := by
  unfold mapSet
  by_cases h : hasKey m k = true
  · rw [if_pos h]
    exact mapGet_of_map_branch_ne _ _ _ _ hne
  · rw [if_neg h, mapGet_append]
    simp [mapGet_cons, Ne.symm hne]

@[simp]
theorem mapGet_delete_self {β : Type} (m : List (String × β)) (k : String) :
    mapGet (mapDelete m k) k = none := by
  induction m with
  | nil => simp [mapDelete]
  | cons hd tl ih =>
    obtain ⟨a, b⟩ := hd
    unfold mapDelete at *
    cases h : (a == k) with
    | true => simpa [h] using ih
    | false => simpa [h, mapGet_cons] using ih

theorem mapGet_delete_ne {β : Type} (m : List (String × β)) (k k' : String)
    (hne : k' ≠ k) : mapGet (mapDelete m k) k' = mapGet m k' := by
  induction m with
  | nil => simp [mapDelete]
  | cons hd tl ih =>
    obtain ⟨a, b⟩ := hd
    unfold mapDelete at *
    cases h : (a == k) with
    | true =>
      have ha : a = k := by simpa using h
      have hak : (a == k') = false := by simpa [ha] using fun hc => hne hc.symm
      simpa [h, mapGet_cons, hak] using ih
    | false => simp [h, mapGet_cons, ih]

theorem mem_mapSet {β : Type} {m : List (String × β)} {k : String} {v : β}
    {q : String × β} (hq : q ∈ mapSet m k v) : q = (k, v) ∨ q ∈ m := by
  unfold mapSet at hq
  by_cases h : hasKey m k
  · rw [if_pos h] at hq
    obtain ⟨p, hp, hfp⟩ := List.mem_map.mp hq
    by_cases hk : (p.1 == k) = true
    · left; rw [← hfp]; simp [hk]
    · right; rw [← hfp]; simp only [hk]; simpa using hp
  · rw [if_neg h] at hq
    rcases List.mem_append.mp hq with h1 | h1
    · right; exact h1
    · left; simpa using h1

theorem mapGet_isSome_iff {β : Type} (m : List (String × β)) (k : String) :
    (mapGet m k).isSome = true ↔ ∃ v, (k, v) ∈ m := by
  induction m with
  | nil => simp
  | cons hd tl ih =>
    obtain ⟨a, b⟩ := hd
    rw [mapGet_cons]
    cases h : (a == k) with
    | true =>
      have ha : a = k := by simpa using h
      subst ha
      simp
    | false =>
      have ha : a ≠ k := by simpa using h
      rw [if_neg Bool.false_ne_true, ih]
      constructor
      · rintro ⟨v, hv⟩; exact ⟨v, List.mem_cons_of_mem _ hv⟩
      · rintro ⟨v, hv⟩
        rcases List.mem_cons.mp hv with h1 | h1
        · exact absurd (congrArg Prod.fst h1).symm ha
        · exact ⟨v, h1⟩

theorem mem_valsOf {β : Type} {m : List (String × β)} {v : β} :
    v ∈ valsOf m ↔ ∃ a, (a, v) ∈ m := by
  simp only [valsOf, List.mem_map]
  constructor
  · rintro ⟨⟨a, b⟩, hm, rfl⟩; exact ⟨a, hm⟩
  · rintro ⟨a, hm⟩; exact ⟨(a, v), hm, rfl⟩

theorem mem_keysOf {β : Type} {m : List (String × β)} {k : String} :
    k ∈ keysOf m ↔ ∃ v, (k, v) ∈ m := by
  simp only [keysOf, List.mem_map]
  constructor
  · rintro ⟨⟨a, b⟩, hm, rfl⟩; exact ⟨b, hm⟩
  · rintro ⟨v, hm⟩; exact ⟨(k, v), hm, rfl⟩

theorem keysOf_mapSet_of_hasKey {β : Type} (m : List (String × β)) (k : String)
    (v : β) (h : hasKey m k = true) : keysOf (mapSet m k v) = keysOf m := by
  unfold mapSet
  rw [if_pos h]
  unfold keysOf
  rw [List.map_map]
  apply List.map_congr_left
  intro p _
  by_cases hk : p.1 = k
  · simp [Function.comp_apply, hk]
  · simp [Function.comp_apply, hk]

theorem keysOf_mapSet_of_not_hasKey {β : Type} (m : List (String × β)) (k : String)
    (v : β) (h : hasKey m k = false) : keysOf (mapSet m k v) = keysOf m ++ [k] := by
  unfold mapSet
  rw [if_neg (by simp [h])]
  simp [keysOf]

theorem not_mem_keysOf_of_not_hasKey {β : Type} {m : List (String × β)} {k : String}
    (h : hasKey m k = false) : k ∉ keysOf m := by
  intro hk
  obtain ⟨v, hv⟩ := mem_keysOf.mp hk
  unfold hasKey at h
  rw [List.any_eq_false] at h
  exact absurd (by simp : ((k, v) : String × β).1 == k) (by simpa using h (k, v) hv)

theorem nodup_keysOf_mapSet {β : Type} (m : List (String × β)) (k : String) (v : β)
    (h : (keysOf m).Nodup) : (keysOf (mapSet m k v)).Nodup := by
  cases hk : hasKey m k with
  | true => rw [keysOf_mapSet_of_hasKey _ _ _ hk]; exact h
  | false =>
    rw [keysOf_mapSet_of_not_hasKey _ _ _ hk]
    refine List.Nodup.append h (List.nodup_singleton k) ?_
    intro x hx hx'
    rw [List.mem_singleton] at hx'
    subst hx'
    exact not_mem_keysOf_of_not_hasKey hk hx

/-! ### Fan-out lemmas -/

theorem sendToClientOut_of_some {st : ServerState} {cid : String} {c : ClientEntry}
    (h : mapGet st.clients cid = some c) (msg : OutMsg) :
    sendToClientOut st cid msg = [(cid, msg)] := by
  unfold sendToClientOut
  rw [h]

theorem sendToClientOut_of_none {st : ServerState} {cid : String}
    (h : mapGet st.clients cid = none) (msg : OutMsg) :
    sendToClientOut st cid msg = [] := by
  unfold sendToClientOut
  rw [h]

theorem mem_sendToClientOut {st : ServerState} {cid tgt : String} {msg m : OutMsg}
    (h : (tgt, m) ∈ sendToClientOut st cid msg) : m = msg ∧ tgt = cid := by
  unfold sendToClientOut at h
  cases hc : mapGet st.clients cid <;> rw [hc] at h
  · simp at h
  · have heq := List.mem_singleton.mp h
    simp only [Prod.mk.injEq] at heq
    exact ⟨heq.2, heq.1⟩

theorem mem_broadcastOut {st : ServerState} {rid : String} {msg : OutMsg}
    {excl : Option String} {tgt : String} {m : OutMsg}
    (hm : (tgt, m) ∈ broadcastOut st rid msg excl) :
    m = msg ∧ (∃ room, mapGet st.rooms rid = some room ∧ ∃ v, (tgt, v) ∈ room.participants) ∧
      (mapGet st.clients tgt).isSome = true ∧ excl ≠ some tgt := by
  unfold broadcastOut at hm
  cases hr : mapGet st.rooms rid <;> rw [hr] at hm
  · simp at hm
  case some room =>
    obtain ⟨p, hp, hfp⟩ := List.mem_filterMap.mp hm
    by_cases he : excl = some p.1
    · rw [if_pos he] at hfp; exact absurd hfp (by simp)
    · rw [if_neg he] at hfp
      cases hc : mapGet st.clients p.1 <;> rw [hc] at hfp
      · exact absurd hfp (by simp)
      · have h1 : p.1 = tgt := congrArg Prod.fst (Option.some.inj hfp)
        have h2 : msg = m := congrArg Prod.snd (Option.some.inj hfp)
        refine ⟨h2.symm, ⟨room, rfl, p.2, ?_⟩, ?_, ?_⟩
        · rw [← h1]; exact hp
        · rw [← h1, hc]; rfl
        · rw [← h1]; exact he

theorem broadcastOut_none_mem {st : ServerState} {rid : String} {msg : OutMsg}
    {tgt : String} {room : Room} (hr : mapGet st.rooms rid = some room)
    (hpart : ∃ v, (tgt, v) ∈ room.participants)
    (hcli : (mapGet st.clients tgt).isSome = true) :
    (tgt, msg) ∈ broadcastOut st rid msg none := by
  unfold broadcastOut
  rw [hr]
  obtain ⟨v, hv⟩ := hpart
  apply List.mem_filterMap.mpr
  refine ⟨(tgt, v), hv, ?_⟩
  rw [if_neg (by simp)]
  cases hc : mapGet st.clients tgt
  · rw [hc] at hcli; exact absurd hcli (by simp)
  · rfl

/-! ### Component-preservation lemmas for the guard -/

theorem checkRateLimit_keeps (now : Nat) (ip : String) (st : ServerState) :
    (checkRateLimit now ip st).2.rooms = st.rooms ∧
    (checkRateLimit now ip st).2.clients = st.clients ∧
    (checkRateLimit now ip st).2.csrfTokens = st.csrfTokens ∧
    (checkRateLimit now ip st).2.csrfTimers = st.csrfTimers ∧
    (checkRateLimit now ip st).2.globalRoomCreations = st.globalRoomCreations := by
  unfold checkRateLimit
  by_cases h : ip ∈ st.suspiciousIPs
  · rw [if_pos h]; exact ⟨rfl, rfl, rfl, rfl, rfl⟩
  · rw [if_neg h]
    split
    · exact ⟨rfl, rfl, rfl, rfl, rfl⟩
    · split_ifs <;> exact ⟨rfl, rfl, rfl, rfl, rfl⟩

theorem addSuspicious_keeps (ip : String) (st : ServerState) :
    (addSuspicious ip st).rooms = st.rooms ∧
    (addSuspicious ip st).clients = st.clients ∧
    (addSuspicious ip st).rateLimit = st.rateLimit ∧
    (addSuspicious ip st).suspTimers = st.suspTimers ∧
    (addSuspicious ip st).csrfTokens = st.csrfTokens ∧
    (addSuspicious ip st).csrfTimers = st.csrfTimers ∧
    (addSuspicious ip st).globalRoomCreations = st.globalRoomCreations := by
  unfold addSuspicious
  split_ifs <;> exact ⟨rfl, rfl, rfl, rfl, rfl, rfl, rfl⟩

theorem mem_addSuspicious (ip : String) (st : ServerState) :
    ip ∈ (addSuspicious ip st).suspiciousIPs := by
  unfold addSuspicious
  split_ifs with h
  · exact h
  · simp

/-- C5 (claim `C5`): after any create-room attempt that presents token `tok`
    (a real issued token, hence nonempty), `tok` is gone from the token store
    whatever the outcome was, and an immediately following attempt with the
    same token yields the invalid-token outcome. -/
theorem createRoom_csrfToken_gone (now : Nat) (ip : String) (tok : String)
    (hdrs : ReqHeaders) (rid akey : String) (st : ServerState) (hne : tok ≠ "") :
    mapGet (createRoomHandler now ip (some tok) hdrs rid akey st).2.csrfTokens tok
      = none := by
  simp only [createRoomHandler]
  rw [if_neg (by simpa using hne)]
  split
  · next heq => exact heq
  · next tokenData heq =>
    split_ifs with h1 h2 h3 h4 h5 h6
    · exact mapGet_delete_self _ _
    · rw [(addSuspicious_keeps ip _).2.2.2.2.1]
      exact mapGet_delete_self _ _
    · rw [(addSuspicious_keeps ip _).2.2.2.2.1]
      exact mapGet_delete_self _ _
    · rw [(checkRateLimit_keeps now ip _).2.2.1]
      exact mapGet_delete_self _ _
    · rw [(checkRateLimit_keeps now ip _).2.2.1]
      exact mapGet_delete_self _ _
    · rw [(checkRateLimit_keeps now ip _).2.2.1]
      exact mapGet_delete_self _ _
    · rw [(checkRateLimit_keeps now ip _).2.2.1]
      exact mapGet_delete_self _ _

/-! ### Concrete states for witnesses -/

/-- A small concrete room used by the witnesses. -/
def wRoom : Room :=
  { id := "r1", adminKey := "k", createdAt := 0, lastEmptyTime := some 1,
    participants := [], messages := [] }

/-- A small concrete state: one empty room, one unbound connection, one
    issued CSRF token. -/
def wState : ServerState :=
  { rooms := [("r1", wRoom)],
    clients := [("c1", { roomId := none, nickname := none, userKey := none })],
    rateLimit := [], suspiciousIPs := [], suspTimers := [],
    csrfTokens := [("tok1", { ip := "1.2.3.4", createdAt := 5000 })],
    csrfTimers := [("tok1", 305000)], globalRoomCreations := [] }

/-- A chat message used to pre-fill logs in witnesses. -/
def wMsg : ChatMessage :=
  { id := "m0", senderId := "c9", senderName := some "bob", content := "x",
    image := none, timestamp := 1 }

/-- A room whose chat log is exactly at the hard cap. -/
def wRoomFull : Room :=
  { id := "r1", adminKey := "k", createdAt := 0, lastEmptyTime := none,
    participants := [("c1", mkParticipant "c1" "alice" "k1" 2)],
    messages := List.replicate 200 wMsg }

/-- `wState` with the full room and a bound connection `c1`. -/
def wStateFull : ServerState :=
  { rooms := [("r1", wRoomFull)],
    clients := [("c1", { roomId := some "r1", nickname := some "alice",
                         userKey := some "k1" })],
    rateLimit := [], suspiciousIPs := [], suspTimers := [],
    csrfTokens := [], csrfTimers := [], globalRoomCreations := [] }

/-! ### Claim C5 -/

/-- C5: an anti-forgery token presented to the create-room endpoint is
    deleted from the token store on its first consumption lookup regardless
    of the outcome, so a second consumption attempt with the same token
    always yields the invalid-token outcome.  (`tok ≠ ""` because issued
    tokens are UUID strings; the empty string is rejected by JS falsiness
    before the lookup.) -/
theorem C5_token_single_use (now1 now2 : Nat) (ip1 ip2 tok : String)
    (hdrs1 hdrs2 : ReqHeaders) (rid1 akey1 rid2 akey2 : String)
    (st : ServerState) (hne : tok ≠ "") :
    mapGet (createRoomHandler now1 ip1 (some tok) hdrs1 rid1 akey1 st).2.csrfTokens
        tok = none ∧
    (createRoomHandler now2 ip2 (some tok) hdrs2 rid2 akey2
        (createRoomHandler now1 ip1 (some tok) hdrs1 rid1 akey1 st).2).1
      = CreateOutcome.invalidToken := by
  refine ⟨createRoom_csrfToken_gone now1 ip1 tok hdrs1 rid1 akey1 st hne, ?_⟩
  have h := createRoom_csrfToken_gone now1 ip1 tok hdrs1 rid1 akey1 st hne
  generalize hg : (createRoomHandler now1 ip1 (some tok) hdrs1 rid1 akey1 st).2 = st1 at h ⊢
  simp only [createRoomHandler]
  rw [if_neg (by simpa using hne), h]

/-- Witness for C5: concrete double consumption of token `tok1`. -/
theorem C5_token_single_use_witness :
    mapGet (createRoomHandler 5500 "1.2.3.4" (some "tok1") ⟨"", "", "", ""⟩
        "r" "a" wState).2.csrfTokens "tok1" = none ∧
    (createRoomHandler 9000 "1.2.3.4" (some "tok1") ⟨"", "", "", ""⟩ "r" "a"
        (createRoomHandler 5500 "1.2.3.4" (some "tok1") ⟨"", "", "", ""⟩
          "r" "a" wState).2).1 = CreateOutcome.invalidToken :=
  C5_token_single_use 5500 9000 "1.2.3.4" "1.2.3.4" "tok1" ⟨"", "", "", ""⟩
    ⟨"", "", "", ""⟩ "r" "a" "r" "a" wState (by decide)

/-! ### Claim C6 -/

/-- C6: assuming the chat-log invariant (length at most the hard cap 200)
    before the event, after a chat-message handler completes the room's log
    still has at most 200 entries, and whenever the cap was exceeded the log
    was trimmed to exactly the most recent 100 entries in original append
    order. -/
theorem C6_chat_log_cap (cid rid content : String) (image : Option String)
    (mid : String) (now : Nat) (st : ServerState) (c : ClientEntry) (room : Room)
    (hc : mapGet st.clients cid = some c)
    (hroom : mapGet st.rooms rid = some room)
    (hlen : room.messages.length ≤ CHAT_LOG_HARD_CAP) :
    ∃ room',
      mapGet (handleMessage cid (.chatMessage rid content image) mid now st).1.rooms
          rid = some room' ∧
      room'.messages.length ≤ CHAT_LOG_HARD_CAP ∧
      (CHAT_LOG_HARD_CAP < room.messages.length + 1 →
        room'.messages.length = CHAT_LOG_TRIM_TO ∧
        room'.messages =
          (room.messages ++ [mkChatMessage mid cid c.nickname content image now]).drop
            (room.messages.length + 1 - CHAT_LOG_TRIM_TO)) := by
  simp only [handleMessage, hc, hroom]
  refine ⟨_, mapGet_set_self _ _ _, ?_, ?_⟩
  · by_cases hbig : CHAT_LOG_HARD_CAP <
        (room.messages ++ [mkChatMessage mid cid c.nickname content image now]).length
    · rw [if_pos hbig]
      simp only [lastSlice, List.length_drop]
      simp only [CHAT_LOG_HARD_CAP, CHAT_LOG_TRIM_TO] at *
      omega
    · rw [if_neg hbig]
      simp only [List.length_append, List.length_cons, List.length_nil] at *
      simp only [CHAT_LOG_HARD_CAP] at *
      omega
  · intro hover
    have hplen : (room.messages ++
        [mkChatMessage mid cid c.nickname content image now]).length =
        room.messages.length + 1 := by simp
    have hbig : CHAT_LOG_HARD_CAP <
        (room.messages ++ [mkChatMessage mid cid c.nickname content image now]).length := by
      rw [hplen]; exact hover
    rw [if_pos hbig]
    constructor
    · simp only [lastSlice, List.length_drop, hplen]
      simp only [CHAT_LOG_HARD_CAP, CHAT_LOG_TRIM_TO] at *
      omega
    · simp only [lastSlice, hplen]

/-- Witness for C6: a chat message into a room whose log already holds
    exactly 200 entries. -/
theorem C6_chat_log_cap_witness :
    ∃ room',
      mapGet (handleMessage "c1" (.chatMessage "r1" "hi" none) "m1" 7
          wStateFull).1.rooms "r1" = some room' ∧
      room'.messages.length ≤ CHAT_LOG_HARD_CAP ∧
      (CHAT_LOG_HARD_CAP < wRoomFull.messages.length + 1 →
        room'.messages.length = CHAT_LOG_TRIM_TO ∧
        room'.messages =
          (wRoomFull.messages ++
            [mkChatMessage "m1" "c1" (some "alice") "hi" none 7]).drop
            (wRoomFull.messages.length + 1 - CHAT_LOG_TRIM_TO)) :=
  C6_chat_log_cap "c1" "r1" "hi" none "m1" 7 wStateFull
    { roomId := some "r1", nickname := some "alice", userKey := some "k1" }
    wRoomFull rfl rfl
    (by simp only [wRoomFull, List.length_replicate, CHAT_LOG_HARD_CAP]; omega)

/-! ### Claim C8 -/

/-- C8: the four signaling relay messages (offer, answer, network candidate,
    screen request) are pure store-and-forward: when the target connection id
    is absent from the registry the handler changes no state and sends
    nothing (no error to the sender); when the target is present the message
    is delivered to exactly that one target, tagged with the sender's id
    (and nickname for offers). -/
theorem C8_relay_store_and_forward (cid target offer answer candidate fresh : String)
    (now : Nat) (st : ServerState) (c : ClientEntry)
    (hc : mapGet st.clients cid = some c) :
    (mapGet st.clients target = none →
      handleMessage cid (.webrtcOffer target offer) fresh now st = (st, []) ∧
      handleMessage cid (.webrtcAnswer target answer) fresh now st = (st, []) ∧
      handleMessage cid (.webrtcIceCandidate target candidate) fresh now st = (st, []) ∧
      handleMessage cid (.requestScreen target) fresh now st = (st, [])) ∧
    (∀ tc : ClientEntry, mapGet st.clients target = some tc →
      handleMessage cid (.webrtcOffer target offer) fresh now st
        = (st, [(target, .webrtcOffer cid c.nickname offer)]) ∧
      handleMessage cid (.webrtcAnswer target answer) fresh now st
        = (st, [(target, .webrtcAnswer cid answer)]) ∧
      handleMessage cid (.webrtcIceCandidate target candidate) fresh now st
        = (st, [(target, .webrtcIceCandidate cid candidate)]) ∧
      handleMessage cid (.requestScreen target) fresh now st
        = (st, [(target, .screenRequested cid)])) := by
  constructor
  · intro habs
    refine ⟨?_, ?_, ?_, ?_⟩ <;>
      simp [handleMessage, hc, sendToClientOut, habs]
  · intro tc htc
    refine ⟨?_, ?_, ?_, ?_⟩ <;>
      simp [handleMessage, hc, sendToClientOut, htc]

/-- Witness for C8: concrete relay attempts from the registered connection
    `c1` (the absent target `c2` and the present target `c1` itself are both
    exercised through the two conjuncts). -/
theorem C8_relay_store_and_forward_witness :
    (mapGet wState.clients "c2" = none →
      handleMessage "c1" (.webrtcOffer "c2" "o") "f" 3 wState = (wState, []) ∧
      handleMessage "c1" (.webrtcAnswer "c2" "a") "f" 3 wState = (wState, []) ∧
      handleMessage "c1" (.webrtcIceCandidate "c2" "i") "f" 3 wState = (wState, []) ∧
      handleMessage "c1" (.requestScreen "c2") "f" 3 wState = (wState, [])) ∧
    (∀ tc : ClientEntry, mapGet wState.clients "c2" = some tc →
      handleMessage "c1" (.webrtcOffer "c2" "o") "f" 3 wState
        = (wState, [("c2", .webrtcOffer "c1" none "o")]) ∧
      handleMessage "c1" (.webrtcAnswer "c2" "a") "f" 3 wState
        = (wState, [("c2", .webrtcAnswer "c1" "a")]) ∧
      handleMessage "c1" (.webrtcIceCandidate "c2" "i") "f" 3 wState
        = (wState, [("c2", .webrtcIceCandidate "c1" "i")]) ∧
      handleMessage "c1" (.requestScreen "c2") "f" 3 wState
        = (wState, [("c2", .screenRequested "c1")])) :=
  C8_relay_store_and_forward "c1" "c2" "o" "a" "i" "f" 3 wState
    { roomId := none, nickname := none, userKey := none } rfl

/-! ### Claim C2 -/

/-- A concrete room with one participant `c1` and an empty log. -/
def wRoomChat : Room :=
  { id := "r1", adminKey := "k", createdAt := 0, lastEmptyTime := none,
    participants := [("c1", mkParticipant "c1" "alice" "k1" 2)],
    messages := [] }

/-- A state where `c1` is bound to room `r1` and `c2` is a registered but
    unbound connection. -/
def wStateChat : ServerState :=
  { rooms := [("r1", wRoomChat)],
    clients := [("c1", { roomId := some "r1", nickname := some "alice",
                         userKey := some "k1" }),
                ("c2", { roomId := none, nickname := none, userKey := none })],
    rateLimit := [], suspiciousIPs := [], suspTimers := [],
    csrfTokens := [], csrfTimers := [], globalRoomCreations := [] }

/-- Counterexample to C2 as stated: connection `c2` is bound to no room, yet
    its chat-message for room `r1` is handled with full effect — the message
    is appended to `r1`'s log (and broadcast to `r1`'s participant `c1`), so
    handling does not require the sender to be bound to a room. -/
theorem C2_chat_unbound_counterexample :
    (mapGet wStateChat.clients "c2").map (fun c => c.roomId) = some none ∧
    (mapGet (handleMessage "c2" (.chatMessage "r1" "hi" none) "m1" 7
        wStateChat).1.rooms "r1").map (fun r => r.messages) =
      some [mkChatMessage "m1" "c2" none "hi" none 7] ∧
    (handleMessage "c2" (.chatMessage "r1" "hi" none) "m1" 7 wStateChat).2 =
      [("c1", OutMsg.chatMessage (mkChatMessage "m1" "c2" none "hi" none 7))] := by
  refine ⟨rfl, rfl, rfl⟩

/-- C2 (amended): a chat-message event requires only that the named room
    exist and the sender be a registered connection — the sender's room
    binding is not consulted.  It appends a ChatMessage (id, sender snapshot,
    content, optional image, timestamp) to the named room's log (trimmed to
    the most recent 100 entries when the push exceeds the 200 cap, in order),
    and broadcasts it to every registered participant of that room with no
    exclusion, so the sender receives its own echo exactly when it is itself
    a participant of that room. -/
theorem C2_chat_message_behavior (cid rid content : String) (image : Option String)
    (mid : String) (now : Nat) (st : ServerState) (c : ClientEntry) (room : Room)
    (hc : mapGet st.clients cid = some c)
    (hroom : mapGet st.rooms rid = some room) :
    ∃ room',
      mapGet (handleMessage cid (.chatMessage rid content image) mid now st).1.rooms
          rid = some room' ∧
      room'.messages =
        (if room.messages.length + 1 ≤ CHAT_LOG_HARD_CAP then
          room.messages ++ [mkChatMessage mid cid c.nickname content image now]
        else
          (room.messages ++
            [mkChatMessage mid cid c.nickname content image now]).drop
            (room.messages.length + 1 - CHAT_LOG_TRIM_TO)) ∧
      room'.participants = room.participants ∧
      (∀ tgt,
        (tgt, OutMsg.chatMessage (mkChatMessage mid cid c.nickname content image now))
            ∈ (handleMessage cid (.chatMessage rid content image) mid now st).2 ↔
          ((∃ v, (tgt, v) ∈ room.participants) ∧
            (mapGet st.clients tgt).isSome = true)) := by
  simp only [handleMessage, hc, hroom]
  refine ⟨_, mapGet_set_self _ _ _, ?_, rfl, ?_⟩
  · have hplen : (room.messages ++
        [mkChatMessage mid cid c.nickname content image now]).length =
        room.messages.length + 1 := by simp
    by_cases hbig : CHAT_LOG_HARD_CAP <
        (room.messages ++ [mkChatMessage mid cid c.nickname content image now]).length
    · rw [if_pos hbig,
        if_neg (by omega : ¬ (room.messages.length + 1 ≤ CHAT_LOG_HARD_CAP))]
      simp only [lastSlice, hplen]
    · rw [if_neg hbig,
        if_pos (by omega : room.messages.length + 1 ≤ CHAT_LOG_HARD_CAP)]
  · intro tgt
    constructor
    · intro hmem
      obtain ⟨_, ⟨room'', hr'', v, hv⟩, hcli, _⟩ := mem_broadcastOut hmem
      rw [mapGet_set_self] at hr''
      have hroomeq := Option.some.inj hr''
      refine ⟨⟨v, ?_⟩, hcli⟩
      · rw [← hroomeq] at hv
        exact hv
    · rintro ⟨⟨v, hv⟩, hcli⟩
      exact broadcastOut_none_mem (mapGet_set_self _ _ _) ⟨v, hv⟩ hcli

/-- Witness for the amended C2: `c1` (a participant) chats into `r1`; the log
    gains exactly the new message and `c1` concretely receives its own echo. -/
theorem C2_chat_message_behavior_witness :
    (∃ room',
      mapGet (handleMessage "c1" (.chatMessage "r1" "hey" none) "m2" 9
          wStateChat).1.rooms "r1" = some room' ∧
      room'.messages =
        (if wRoomChat.messages.length + 1 ≤ CHAT_LOG_HARD_CAP then
          wRoomChat.messages ++ [mkChatMessage "m2" "c1" (some "alice") "hey" none 9]
        else
          (wRoomChat.messages ++
            [mkChatMessage "m2" "c1" (some "alice") "hey" none 9]).drop
            (wRoomChat.messages.length + 1 - CHAT_LOG_TRIM_TO)) ∧
      room'.participants = wRoomChat.participants ∧
      (∀ tgt,
        (tgt, OutMsg.chatMessage (mkChatMessage "m2" "c1" (some "alice") "hey" none 9))
            ∈ (handleMessage "c1" (.chatMessage "r1" "hey" none) "m2" 9 wStateChat).2 ↔
          ((∃ v, (tgt, v) ∈ wRoomChat.participants) ∧
            (mapGet wStateChat.clients tgt).isSome = true))) ∧
    ("c1", OutMsg.chatMessage (mkChatMessage "m2" "c1" (some "alice") "hey" none 9))
      ∈ (handleMessage "c1" (.chatMessage "r1" "hey" none) "m2" 9 wStateChat).2 := by
  have h := C2_chat_message_behavior "c1" "r1" "hey" none "m2" 9 wStateChat
    { roomId := some "r1", nickname := some "alice", userKey := some "k1" }
    wRoomChat rfl rfl
  refine ⟨h, ?_⟩
  obtain ⟨room', _, _, _, h4⟩ := h
  exact (h4 "c1").mpr ⟨⟨mkParticipant "c1" "alice" "k1" 2, by decide⟩, by decide⟩

/-! ### Block-list effect lemmas -/

/-- How `checkRateLimit` can touch the block list: either it leaves both the
    set and the pending deletions unchanged, or (promotion) it appends an
    address that was not yet blocked together with a deletion timer a full
    block duration later. -/
theorem checkRateLimit_susp_cases (now : Nat) (ip : String) (st : ServerState) :
    ((checkRateLimit now ip st).2.suspiciousIPs = st.suspiciousIPs ∧
     (checkRateLimit now ip st).2.suspTimers = st.suspTimers) ∨
    (ip ∉ st.suspiciousIPs ∧
     (checkRateLimit now ip st).2.suspiciousIPs = st.suspiciousIPs ++ [ip] ∧
     (checkRateLimit now ip st).2.suspTimers =
       st.suspTimers ++ [(ip, now + SUSPICIOUS_BLOCK_MS)]) := by
  unfold checkRateLimit
  by_cases h : ip ∈ st.suspiciousIPs
  · rw [if_pos h]; exact Or.inl ⟨rfl, rfl⟩
  · rw [if_neg h]
    split
    · exact Or.inl ⟨rfl, rfl⟩
    · split_ifs
      · exact Or.inl ⟨rfl, rfl⟩
      · exact Or.inr ⟨h, rfl, rfl⟩
      · exact Or.inl ⟨rfl, rfl⟩

/-- How `addSuspicious` touches the block list. -/
theorem addSuspicious_susp_cases (ip : String) (st : ServerState) :
    (addSuspicious ip st).suspTimers = st.suspTimers ∧
    ((addSuspicious ip st).suspiciousIPs = st.suspiciousIPs ∨
     (addSuspicious ip st).suspiciousIPs = st.suspiciousIPs ++ [ip]) := by
  unfold addSuspicious
  split_ifs
  · exact ⟨rfl, Or.inl rfl⟩
  · exact ⟨rfl, Or.inr rfl⟩

/-- How the whole create-room handler can touch the block list: unchanged,
    appended without a timer (too_fast / forbidden), or appended with a timer
    (rate-ceiling promotion inside `checkRateLimit`). -/
theorem createRoom_susp_cases (now : Nat) (ip : String) (csrf : Option String)
    (hdrs : ReqHeaders) (rid akey : String) (st : ServerState) :
    ((createRoomHandler now ip csrf hdrs rid akey st).2.suspiciousIPs =
        st.suspiciousIPs ∧
     (createRoomHandler now ip csrf hdrs rid akey st).2.suspTimers =
        st.suspTimers) ∨
    ((createRoomHandler now ip csrf hdrs rid akey st).2.suspiciousIPs =
        st.suspiciousIPs ++ [ip] ∧
     (createRoomHandler now ip csrf hdrs rid akey st).2.suspTimers =
        st.suspTimers) ∨
    (ip ∉ st.suspiciousIPs ∧
     (createRoomHandler now ip csrf hdrs rid akey st).2.suspiciousIPs =
        st.suspiciousIPs ++ [ip] ∧
     (createRoomHandler now ip csrf hdrs rid akey st).2.suspTimers =
        st.suspTimers ++ [(ip, now + SUSPICIOUS_BLOCK_MS)]) := by
  match csrf with
  | none => exact Or.inl ⟨rfl, rfl⟩
  | some tok =>
    simp only [createRoomHandler]
    split
    · exact Or.inl ⟨rfl, rfl⟩
    · split
      · exact Or.inl ⟨rfl, rfl⟩
      · split
        · exact Or.inl ⟨rfl, rfl⟩
        · split
          · rcases (addSuspicious_susp_cases ip _).2 with hs | hs
            · exact Or.inl ⟨hs, (addSuspicious_susp_cases ip _).1⟩
            · exact Or.inr (Or.inl ⟨hs, (addSuspicious_susp_cases ip _).1⟩)
          · split
            · rcases (addSuspicious_susp_cases ip _).2 with hs | hs
              · exact Or.inl ⟨hs, (addSuspicious_susp_cases ip _).1⟩
              · exact Or.inr (Or.inl ⟨hs, (addSuspicious_susp_cases ip _).1⟩)
            · split
              · rcases checkRateLimit_susp_cases now ip _ with ⟨hs, htm⟩ | ⟨hn, hs, htm⟩
                · exact Or.inl ⟨hs, htm⟩
                · exact Or.inr (Or.inr ⟨hn, hs, htm⟩)
              · split
                · rcases checkRateLimit_susp_cases now ip _ with ⟨hs, htm⟩ | ⟨hn, hs, htm⟩
                  · exact Or.inl ⟨hs, htm⟩
                  · exact Or.inr (Or.inr ⟨hn, hs, htm⟩)
                · split
                  · rcases checkRateLimit_susp_cases now ip _ with ⟨hs, htm⟩ | ⟨hn, hs, htm⟩
                    · exact Or.inl ⟨hs, htm⟩
                    · exact Or.inr (Or.inr ⟨hn, hs, htm⟩)
                  · rcases checkRateLimit_susp_cases now ip _ with ⟨hs, htm⟩ | ⟨hn, hs, htm⟩
                    · exact Or.inl ⟨hs, htm⟩
                    · exact Or.inr (Or.inr ⟨hn, hs, htm⟩)

/-- The promotion equation: a check for a non-blocked address whose rate
    record is inside an active window at the ceiling denies the request, adds
    the address to the block list and schedules its removal a full block
    duration later. -/
theorem checkRateLimit_promotes (now : Nat) (ip : String) (st : ServerState)
    (r : RateRecord) (hnot : ip ∉ st.suspiciousIPs)
    (hrec : mapGet st.rateLimit ip = some r) (hwin : ¬ (r.resetTime < now))
    (hceil : RATE_LIMIT_MAX_REQUESTS ≤ r.count) :
    checkRateLimit now ip st =
      (false, { st with suspiciousIPs := st.suspiciousIPs ++ [ip],
                        suspTimers := st.suspTimers ++
                          [(ip, now + SUSPICIOUS_BLOCK_MS)] }) := by
  unfold checkRateLimit
  rw [if_neg hnot]
  simp only [hrec]
  rw [if_neg hwin, if_pos hceil]

/-- A blocked address with no pending deletion timer survives any single
    guard event, still with no pending timer. -/
theorem perm_step (ip : String) (st : ServerState) (e : GuardEvent)
    (h1 : ip ∈ st.suspiciousIPs) (h2 : ∀ d, (ip, d) ∉ st.suspTimers) :
    ip ∈ (applyGuardEvent st e).suspiciousIPs ∧
    ∀ d, (ip, d) ∉ (applyGuardEvent st e).suspTimers := by
  cases e with
  | check ip' now' =>
    rcases checkRateLimit_susp_cases now' ip' st with ⟨hs, htm⟩ | ⟨hn, hs, htm⟩
    · rw [applyGuardEvent, hs, htm]; exact ⟨h1, h2⟩
    · rw [applyGuardEvent, hs, htm]
      have hne : ip' ≠ ip := fun hc => hn (hc ▸ h1)
      constructor
      · exact List.mem_append_left _ h1
      · intro d hd
        rcases List.mem_append.mp hd with hd1 | hd1
        · exact h2 d hd1
        · have := List.mem_singleton.mp hd1
          exact hne (congrArg Prod.fst this).symm
  | sweep now' => exact ⟨h1, h2⟩
  | advance now' =>
    constructor
    · apply List.mem_filter.mpr
      refine ⟨h1, ?_⟩
      simp only [Bool.not_eq_eq_eq_not, Bool.not_true, List.any_eq_false]
      intro q hq
      simp only [Bool.and_eq_true, beq_iff_eq, decide_eq_true_eq, not_and]
      intro hqi hle
      apply h2 q.2
      have hqeq : q = (ip, q.2) := by
        rw [← hqi]
      rw [← hqeq]
      exact hq
    · intro d hd
      exact h2 d (List.mem_filter.mp hd).1
  | create now' ip' tok hdrs rid akey =>
    rcases createRoom_susp_cases now' ip' tok hdrs rid akey st with
      ⟨hs, htm⟩ | ⟨hs, htm⟩ | ⟨hn, hs, htm⟩
    · rw [applyGuardEvent, hs, htm]; exact ⟨h1, h2⟩
    · rw [applyGuardEvent, hs, htm]
      exact ⟨List.mem_append_left _ h1, h2⟩
    · rw [applyGuardEvent, hs, htm]
      have hne : ip' ≠ ip := fun hc => hn (hc ▸ h1)
      constructor
      · exact List.mem_append_left _ h1
      · intro d hd
        rcases List.mem_append.mp hd with hd1 | hd1
        · exact h2 d hd1
        · have := List.mem_singleton.mp hd1
          exact hne (congrArg Prod.fst this).symm
  | issue now' ip' token => exact ⟨h1, h2⟩

/-- A blocked address with no pending deletion timer survives any sequence of
    guard events. -/
theorem perm_run (ip : String) (evs : List GuardEvent) (st : ServerState)
    (h1 : ip ∈ st.suspiciousIPs) (h2 : ∀ d, (ip, d) ∉ st.suspTimers) :
    ip ∈ (runGuard st evs).suspiciousIPs ∧
    ∀ d, (ip, d) ∉ (runGuard st evs).suspTimers := by
  induction evs generalizing st with
  | nil => exact ⟨h1, h2⟩
  | cons e rest ih =>
    have hstep := perm_step ip st e h1 h2
    exact ih (applyGuardEvent st e) hstep.1 hstep.2

/-! ### Claim C3 -/

/-- Counterexample to C3 as stated: the too_fast path of the create-room
    handler inserts the address into the block list while the pending-timer
    queue stays empty — no deferred removal is scheduled on this insertion
    path, so this block-list membership never expires. -/
theorem C3_no_timer_counterexample :
    (createRoomHandler 5500 "1.2.3.4" (some "tok1") ⟨"", "", "", ""⟩ "r" "a"
        wState).1 = CreateOutcome.tooFast ∧
    "1.2.3.4" ∈ (createRoomHandler 5500 "1.2.3.4" (some "tok1") ⟨"", "", "", ""⟩
        "r" "a" wState).2.suspiciousIPs ∧
    (createRoomHandler 5500 "1.2.3.4" (some "tok1") ⟨"", "", "", ""⟩ "r" "a"
        wState).2.suspTimers = [] := by
  refine ⟨rfl, ?_, rfl⟩
  decide

/-- C3 (amended): only the rate-ceiling promotion inside `checkRateLimit`
    schedules a deferred removal for its block-list insertion; the too_fast
    and failed-request-validation paths of the create-room handler insert the
    address with the pending-timer queue unchanged, and an address blocked
    with no pending timer remains in the deny-list under every subsequent
    sequence of guard events — its membership never expires. -/
theorem C3_insertion_paths (now : Nat) (ip : String) (st : ServerState) :
    (∀ r : RateRecord, ip ∉ st.suspiciousIPs → mapGet st.rateLimit ip = some r →
      ¬ (r.resetTime < now) → RATE_LIMIT_MAX_REQUESTS ≤ r.count →
      ip ∈ (checkRateLimit now ip st).2.suspiciousIPs ∧
      (ip, now + SUSPICIOUS_BLOCK_MS) ∈ (checkRateLimit now ip st).2.suspTimers) ∧
    (∀ (tok : String) (hdrs : ReqHeaders) (rid akey : String),
      ((createRoomHandler now ip (some tok) hdrs rid akey st).1 =
          CreateOutcome.tooFast ∨
       (createRoomHandler now ip (some tok) hdrs rid akey st).1 =
          CreateOutcome.forbidden) →
      ip ∈ (createRoomHandler now ip (some tok) hdrs rid akey st).2.suspiciousIPs ∧
      (createRoomHandler now ip (some tok) hdrs rid akey st).2.suspTimers =
        st.suspTimers) ∧
    (ip ∈ st.suspiciousIPs → (∀ d, (ip, d) ∉ st.suspTimers) →
      ∀ evs : List GuardEvent, ip ∈ (runGuard st evs).suspiciousIPs) := by
  refine ⟨?_, ?_, ?_⟩
  · intro r hnot hrec hwin hceil
    rw [checkRateLimit_promotes now ip st r hnot hrec hwin hceil]
    constructor
    · exact List.mem_append_right _ (List.mem_singleton.mpr rfl)
    · exact List.mem_append_right _ (List.mem_singleton.mpr rfl)
  · intro tok hdrs rid akey
    simp only [createRoomHandler]
    split
    · intro houtcome; rcases houtcome with hx | hx <;> simp at hx
    · split
      · intro houtcome; rcases houtcome with hx | hx <;> simp at hx
      · split
        · intro houtcome; rcases houtcome with hx | hx <;> simp at hx
        · split
          · intro _
            exact ⟨mem_addSuspicious ip _, (addSuspicious_susp_cases ip _).1⟩
          · split
            · intro _
              exact ⟨mem_addSuspicious ip _, (addSuspicious_susp_cases ip _).1⟩
            · split
              · intro houtcome; rcases houtcome with hx | hx <;> simp at hx
              · split
                · intro houtcome; rcases houtcome with hx | hx <;> simp at hx
                · split
                  · intro houtcome; rcases houtcome with hx | hx <;> simp at hx
                  · intro houtcome; rcases houtcome with hx | hx <;> simp at hx
  · intro h1 h2 evs
    exact (perm_run ip evs st h1 h2).1

/-- Witness for the amended C3: at a concrete state, the promotion path
    schedules a timer, and the too_fast path inserts without one. -/
theorem C3_insertion_paths_witness :
    ("ip1" ∈ (checkRateLimit 50 "ip1"
        { wState with rateLimit := [("ip1", { count := 3, resetTime := 100 })] }).2.suspiciousIPs ∧
     ("ip1", 50 + SUSPICIOUS_BLOCK_MS) ∈ (checkRateLimit 50 "ip1"
        { wState with rateLimit := [("ip1", { count := 3, resetTime := 100 })] }).2.suspTimers) ∧
    ("1.2.3.4" ∈ (createRoomHandler 5500 "1.2.3.4" (some "tok1") ⟨"", "", "", ""⟩
        "r" "a" wState).2.suspiciousIPs ∧
     (createRoomHandler 5500 "1.2.3.4" (some "tok1") ⟨"", "", "", ""⟩ "r" "a"
        wState).2.suspTimers = wState.suspTimers) ∧
    ("zz" ∈ (runGuard { wState with suspiciousIPs := ["zz"] }
        [GuardEvent.advance 999999999]).suspiciousIPs) :=
  ⟨(C3_insertion_paths 50 "ip1"
      { wState with rateLimit := [("ip1", { count := 3, resetTime := 100 })] }).1
      { count := 3, resetTime := 100 } (by decide) rfl (by decide) (by decide),
   (C3_insertion_paths 5500 "1.2.3.4" wState).2.1 "tok1" ⟨"", "", "", ""⟩ "r" "a"
      (Or.inl rfl),
   (C3_insertion_paths 0 "zz" { wState with suspiciousIPs := ["zz"] }).2.2
      (by decide) (by simp [wState]) [GuardEvent.advance 999999999]⟩

/-! ### Claim C4 -/

/-- A blocked address whose every pending deletion timer lies at or beyond
    `dl` stays blocked (with the same timer bound) across any single guard
    event happening before `dl`. -/
theorem blocked_step (ip : String) (dl : Nat) (st : ServerState) (e : GuardEvent)
    (h1 : ip ∈ st.suspiciousIPs)
    (h2 : ∀ d, (ip, d) ∈ st.suspTimers → dl ≤ d)
    (ht : guardEventTime e < dl) :
    ip ∈ (applyGuardEvent st e).suspiciousIPs ∧
    ∀ d, (ip, d) ∈ (applyGuardEvent st e).suspTimers → dl ≤ d := by
  cases e with
  | check ip' now' =>
    rcases checkRateLimit_susp_cases now' ip' st with ⟨hs, htm⟩ | ⟨hn, hs, htm⟩
    · rw [applyGuardEvent, hs, htm]; exact ⟨h1, h2⟩
    · rw [applyGuardEvent, hs, htm]
      have hne : ip' ≠ ip := fun hc => hn (hc ▸ h1)
      constructor
      · exact List.mem_append_left _ h1
      · intro d hd
        rcases List.mem_append.mp hd with hd1 | hd1
        · exact h2 d hd1
        · exact absurd (congrArg Prod.fst (List.mem_singleton.mp hd1)).symm hne
  | sweep now' => exact ⟨h1, h2⟩
  | advance now' =>
    have hnow : now' < dl := ht
    constructor
    · apply List.mem_filter.mpr
      refine ⟨h1, ?_⟩
      simp only [Bool.not_eq_eq_eq_not, Bool.not_true, List.any_eq_false]
      intro q hq
      simp only [Bool.and_eq_true, beq_iff_eq, decide_eq_true_eq, not_and]
      intro hqi hle
      have hqmem : (ip, q.2) ∈ st.suspTimers := by
        have hqeq : q = (ip, q.2) := by
          rw [← hqi]
        rw [← hqeq]
        exact hq
      have := h2 q.2 hqmem
      omega
    · intro d hd
      exact h2 d (List.mem_filter.mp hd).1
  | create now' ip' tok hdrs rid akey =>
    have hnow : now' < dl := ht
    rcases createRoom_susp_cases now' ip' tok hdrs rid akey st with
      ⟨hs, htm⟩ | ⟨hs, htm⟩ | ⟨hn, hs, htm⟩
    · rw [applyGuardEvent, hs, htm]; exact ⟨h1, h2⟩
    · rw [applyGuardEvent, hs, htm]
      exact ⟨List.mem_append_left _ h1, h2⟩
    · rw [applyGuardEvent, hs, htm]
      have hne : ip' ≠ ip := fun hc => hn (hc ▸ h1)
      constructor
      · exact List.mem_append_left _ h1
      · intro d hd
        rcases List.mem_append.mp hd with hd1 | hd1
        · exact h2 d hd1
        · exact absurd (congrArg Prod.fst (List.mem_singleton.mp hd1)).symm hne
  | issue now' ip' token => exact ⟨h1, h2⟩

/-- Iterated version of `blocked_step`. -/
theorem blocked_run (ip : String) (dl : Nat) (evs : List GuardEvent)
    (st : ServerState) (h1 : ip ∈ st.suspiciousIPs)
    (h2 : ∀ d, (ip, d) ∈ st.suspTimers → dl ≤ d)
    (ht : ∀ e ∈ evs, guardEventTime e < dl) :
    ip ∈ (runGuard st evs).suspiciousIPs ∧
    ∀ d, (ip, d) ∈ (runGuard st evs).suspTimers → dl ≤ d := by
  induction evs generalizing st with
  | nil => exact ⟨h1, h2⟩
  | cons e rest ih =>
    have hstep := blocked_step ip dl st e h1 h2 (ht e (List.mem_cons_self e rest))
    exact ih (applyGuardEvent st e) hstep.1 hstep.2
      (fun e' he' => ht e' (List.mem_cons_of_mem _ he'))

/-- C4: an address that exceeds the request ceiling inside an active rate
    window is denied and promoted to the block list; under any sequence of
    guard events all happening before the block's expiry
    (`t + SUSPICIOUS_BLOCK_MS`), the address stays blocked and every
    `checkRateLimit` call for it before the expiry is denied — in particular
    at times past the original window's `resetTime`.  (`hstale` says the
    starting state has no pending deletion timer for the address, which holds
    in every reachable state where the address is not yet blocked.) -/
theorem C4_block_full_duration (t : Nat) (ip : String) (st : ServerState)
    (r : RateRecord)
    (hnot : ip ∉ st.suspiciousIPs)
    (hrec : mapGet st.rateLimit ip = some r)
    (hwin : ¬ (r.resetTime < t))
    (hceil : RATE_LIMIT_MAX_REQUESTS ≤ r.count)
    (hstale : ∀ d, (ip, d) ∉ st.suspTimers)
    (evs : List GuardEvent)
    (htimes : ∀ e ∈ evs, guardEventTime e < t + SUSPICIOUS_BLOCK_MS) :
    (checkRateLimit t ip st).1 = false ∧
    ip ∈ (runGuard (checkRateLimit t ip st).2 evs).suspiciousIPs ∧
    ∀ t2, t2 < t + SUSPICIOUS_BLOCK_MS →
      (checkRateLimit t2 ip (runGuard (checkRateLimit t ip st).2 evs)).1
        = false := by
  have hpromo := checkRateLimit_promotes t ip st r hnot hrec hwin hceil
  rw [hpromo]
  have h1 : ip ∈ st.suspiciousIPs ++ [ip] :=
    List.mem_append_right _ (List.mem_singleton.mpr rfl)
  have h2 : ∀ d, (ip, d) ∈ st.suspTimers ++ [(ip, t + SUSPICIOUS_BLOCK_MS)] →
      t + SUSPICIOUS_BLOCK_MS ≤ d := by
    intro d hd
    rcases List.mem_append.mp hd with hd1 | hd1
    · exact absurd hd1 (hstale d)
    · have hsnd : d = t + SUSPICIOUS_BLOCK_MS :=
        congrArg Prod.snd (List.mem_singleton.mp hd1)
      omega
  have hrun := blocked_run ip (t + SUSPICIOUS_BLOCK_MS) evs
    { st with suspiciousIPs := st.suspiciousIPs ++ [ip],
              suspTimers := st.suspTimers ++ [(ip, t + SUSPICIOUS_BLOCK_MS)] }
    h1 h2 htimes
  refine ⟨rfl, hrun.1, ?_⟩
  intro t2 ht2
  unfold checkRateLimit
  rw [if_pos hrun.1]

/-- A concrete state for the C4 witness: `ip1` has exhausted the ceiling
    inside a window that resets at 100. -/
def wRateState : ServerState :=
  { wState with rateLimit := [("ip1", { count := 3, resetTime := 100 })] }

/-- Witness for C4: promotion at t = 50 and denial after a sweep, an
    unrelated check and a clock advance, all before the block expiry; the
    denial quantifier covers times past the window reset (e.g. 200 > 100). -/
theorem C4_block_full_duration_witness :
    (checkRateLimit 50 "ip1" wRateState).1 = false ∧
    "ip1" ∈ (runGuard (checkRateLimit 50 "ip1" wRateState).2
      [GuardEvent.sweep 200, GuardEvent.check "other" 300,
       GuardEvent.advance 3600000]).suspiciousIPs ∧
    ∀ t2, t2 < 50 + SUSPICIOUS_BLOCK_MS →
      (checkRateLimit t2 "ip1" (runGuard (checkRateLimit 50 "ip1" wRateState).2
        [GuardEvent.sweep 200, GuardEvent.check "other" 300,
         GuardEvent.advance 3600000])).1 = false :=
  C4_block_full_duration 50 "ip1" wRateState { count := 3, resetTime := 100 }
    (by decide) rfl (by decide) (by decide) (by simp [wRateState, wState])
    [GuardEvent.sweep 200, GuardEvent.check "other" 300,
     GuardEvent.advance 3600000] (by decide)

/-! ### Claim C7 -/

/-- Setting a key never yields an empty association list. -/
theorem mapSet_ne_nil {β : Type} (m : List (String × β)) (k : String) (v : β) :
    mapSet m k v ≠ [] := by
  unfold mapSet
  split_ifs with h
  · intro hc
    rw [List.map_eq_nil_iff] at hc
    subst hc
    simp [hasKey] at h
  · simp

/-- C7: the background sweep deletes every room that has held zero
    participants since a (realistic, nonzero) `lastEmptyTime` more than
    `EMPTY_ROOM_TIMEOUT` ago; a room with a participant is never deleted by
    the sweep; and a successful join clears the room's empty timestamp and
    leaves it occupied, so a room that regains a participant before the
    timeout elapses is never deleted. -/
theorem C7_empty_room_sweep (now : Nat) (st : ServerState) :
    (∀ rid room, (rid, room) ∈ st.rooms → room.participants ≠ [] →
      (rid, room) ∈ (sweepRooms now st).rooms) ∧
    (∀ rid room t, (rid, room) ∈ st.rooms → room.participants = [] →
      room.lastEmptyTime = some t → t ≠ 0 → EMPTY_ROOM_TIMEOUT < now - t →
      (rid, room) ∉ (sweepRooms now st).rooms) ∧
    (∀ (cid nickname fresh : String) (jnow : Nat) (st2 : ServerState)
        (c : ClientEntry) (rid2 : String) (room2 : Room),
      mapGet st2.clients cid = some c → mapGet st2.rooms rid2 = some room2 →
      ∃ room',
        mapGet (handleMessage cid (.joinRoom rid2 nickname) fresh jnow st2).1.rooms
            rid2 = some room' ∧
        room'.lastEmptyTime = none ∧ room'.participants ≠ []) := by
  refine ⟨?_, ?_, ?_⟩
  · intro rid room hmem hocc
    apply List.mem_filter.mpr
    refine ⟨hmem, ?_⟩
    have : room.participants.length ≠ 0 := by
      intro hc; exact hocc (List.length_eq_zero.mp hc)
    simp [this]
  · intro rid room t hmem hempt hlast hnz hold hmem'
    have hpred := (List.mem_filter.mp hmem').2
    simp only [hempt, hlast, List.length_nil, beq_self_eq_true, Bool.true_and,
      Bool.not_eq_eq_eq_not, Bool.not_true, Bool.and_eq_false_iff] at hpred
    rcases hpred with hp | hp
    · simp at hp
      exact hnz hp
    · simp at hp
      omega
  · intro cid nickname fresh jnow st2 c rid2 room2 hc hr
    simp only [handleMessage, hc, hr]
    exact ⟨_, mapGet_set_self _ _ _, rfl, mapSet_ne_nil _ _ _⟩

/-- Witness for C7: the empty room `r1` (empty since time 1) is swept at
    time 700000; the occupied chat room survives the same sweep; a join into
    the empty room clears its timestamp. -/
theorem C7_empty_room_sweep_witness :
    (("r1", wRoomChat) ∈ (sweepRooms 700000 wStateChat).rooms) ∧
    (("r1", wRoom) ∉ (sweepRooms 700000 wState).rooms) ∧
    (∃ room',
      mapGet (handleMessage "c1" (.joinRoom "r1" "alice") "k9" 5 wState).1.rooms
          "r1" = some room' ∧
      room'.lastEmptyTime = none ∧ room'.participants ≠ []) :=
  ⟨(C7_empty_room_sweep 700000 wStateChat).1 "r1" wRoomChat (by decide) (by decide),
   (C7_empty_room_sweep 700000 wState).2.1 "r1" wRoom 1 (by decide) rfl rfl
     (by decide) (by decide),
   (C7_empty_room_sweep 5 wState).2.2 "c1" "alice" "k9" 5 wState
     { roomId := none, nickname := none, userKey := none } "r1" wRoom rfl rfl⟩

/-! ### Claim C10 -/

/-- C10: a connection bound to room `A` that joins a different existing room
    `B` gets its binding replaced by `B` and a participant entry in `B`,
    while its stale participant entry in `A` is left in place; a subsequent
    disconnect removes its entry from `B` only — `A`'s ghost entry survives
    both operations. -/
theorem C10_stale_binding (cid nickname fresh A B : String) (now now2 : Nat)
    (st : ServerState) (c : ClientEntry) (roomA roomB : Room) (pA : Participant)
    (hc : mapGet st.clients cid = some c) (_hbound : c.roomId = some A)
    (hA : mapGet st.rooms A = some roomA) (hB : mapGet st.rooms B = some roomB)
    (hAB : A ≠ B) (hpA : mapGet roomA.participants cid = some pA) :
    (∃ c1, mapGet (handleMessage cid (.joinRoom B nickname) fresh now st).1.clients
        cid = some c1 ∧ c1.roomId = some B) ∧
    (∃ roomB1, mapGet (handleMessage cid (.joinRoom B nickname) fresh now
        st).1.rooms B = some roomB1 ∧
      mapGet roomB1.participants cid = some (mkParticipant cid nickname fresh now)) ∧
    (∃ roomA1, mapGet (handleMessage cid (.joinRoom B nickname) fresh now
        st).1.rooms A = some roomA1 ∧
      mapGet roomA1.participants cid = some pA) ∧
    (∃ roomA2, mapGet (handleClose cid now2
        (handleMessage cid (.joinRoom B nickname) fresh now st).1).1.rooms A
        = some roomA2 ∧
      mapGet roomA2.participants cid = some pA) ∧
    (∃ roomB2, mapGet (handleClose cid now2
        (handleMessage cid (.joinRoom B nickname) fresh now st).1).1.rooms B
        = some roomB2 ∧
      mapGet roomB2.participants cid = none) := by
  simp only [handleMessage, hc, hB]
  have hroomsA : mapGet (mapSet st.rooms B
      { roomB with
        participants := mapSet roomB.participants cid
          (mkParticipant cid nickname fresh now),
        lastEmptyTime := none }) A = some roomA := by
    rw [mapGet_set_ne _ _ _ _ hAB]
    exact hA
  refine ⟨⟨_, mapGet_set_self _ _ _, rfl⟩, ⟨_, mapGet_set_self _ _ _,
    mapGet_set_self _ _ _⟩, ⟨roomA, hroomsA, hpA⟩, ?_, ?_⟩
  · have hcc : mapGet (mapSet st.clients cid
        { roomId := some B, nickname := some nickname, userKey := some fresh })
        cid = some { roomId := some B, nickname := some nickname,
                     userKey := some fresh } := mapGet_set_self _ _ _
    simp only [handleClose, hcc, mapGet_set_self]
    refine ⟨roomA, ?_, hpA⟩
    rw [mapGet_set_ne _ _ _ _ hAB, mapGet_set_ne _ _ _ _ hAB]
    exact hA
  · have hcc : mapGet (mapSet st.clients cid
        { roomId := some B, nickname := some nickname, userKey := some fresh })
        cid = some { roomId := some B, nickname := some nickname,
                     userKey := some fresh } := mapGet_set_self _ _ _
    simp only [handleClose, hcc, mapGet_set_self]
    exact ⟨_, rfl, mapGet_delete_self _ _⟩

/-- Room `a` for the C10 witness: `c1` is its participant. -/
def wRoomA : Room :=
  { id := "a", adminKey := "ka", createdAt := 0, lastEmptyTime := none,
    participants := [("c1", mkParticipant "c1" "alice" "k1" 2)], messages := [] }

/-- Room `b` for the C10 witness: empty. -/
def wRoomB : Room :=
  { id := "b", adminKey := "kb", createdAt := 0, lastEmptyTime := some 1,
    participants := [], messages := [] }

/-- Two rooms, with `c1` bound to room `a`. -/
def wStateTwoRooms : ServerState :=
  { rooms := [("a", wRoomA), ("b", wRoomB)],
    clients := [("c1", { roomId := some "a", nickname := some "alice",
                         userKey := some "k1" })],
    rateLimit := [], suspiciousIPs := [], suspTimers := [],
    csrfTokens := [], csrfTimers := [], globalRoomCreations := [] }

/-- Witness for C10: `c1` is bound to room `a` with a participant entry
    there, then joins room `b` and later disconnects; its ghost entry in `a`
    survives both. -/
theorem C10_stale_binding_witness :
    (∃ c1, mapGet (handleMessage "c1" (.joinRoom "b" "alice") "k2" 30
        wStateTwoRooms).1.clients "c1" = some c1 ∧ c1.roomId = some "b") ∧
    (∃ roomB1, mapGet (handleMessage "c1" (.joinRoom "b" "alice") "k2" 30
        wStateTwoRooms).1.rooms "b" = some roomB1 ∧
      mapGet roomB1.participants "c1" = some (mkParticipant "c1" "alice" "k2" 30)) ∧
    (∃ roomA1, mapGet (handleMessage "c1" (.joinRoom "b" "alice") "k2" 30
        wStateTwoRooms).1.rooms "a" = some roomA1 ∧
      mapGet roomA1.participants "c1" = some (mkParticipant "c1" "alice" "k1" 2)) ∧
    (∃ roomA2, mapGet (handleClose "c1" 40
        (handleMessage "c1" (.joinRoom "b" "alice") "k2" 30
          wStateTwoRooms).1).1.rooms "a" = some roomA2 ∧
      mapGet roomA2.participants "c1" = some (mkParticipant "c1" "alice" "k1" 2)) ∧
    (∃ roomB2, mapGet (handleClose "c1" 40
        (handleMessage "c1" (.joinRoom "b" "alice") "k2" 30
          wStateTwoRooms).1).1.rooms "b" = some roomB2 ∧
      mapGet roomB2.participants "c1" = none) :=
  C10_stale_binding "c1" "alice" "k2" "a" "b" 30 40 wStateTwoRooms
    { roomId := some "a", nickname := some "alice", userKey := some "k1" }
    wRoomA wRoomB (mkParticipant "c1" "alice" "k1" 2) rfl rfl rfl rfl
    (by decide) rfl

/-! ### Claim C9 -/

/-- Every 8-hex-digit string arises as a room id: the first 8 uuid digits are
    exactly the free random digits 0-7. -/
theorem roomIdOf_surjective : Function.Surjective roomIdOf := by
  intro f
  refine ⟨⟨fun j => if h : j.val < 8 then f ⟨j.val, h⟩ else ⟨0, by omega⟩,
    ⟨0, by omega⟩⟩, ?_⟩
  funext i
  have hi8 : i.val < 8 := i.isLt
  simp only [roomIdOf, uuidDigit]
  split_ifs with h1 h2 <;> first
    | exact congrArg f (Fin.ext rfl)
    | omega

/-- Every 11-hex-digit string arises as an admin key prefix content: uuid
    digits 0-10 are all free random digits. -/
theorem adminKeyOf_surjective : Function.Surjective adminKeyOf := by
  intro f
  refine ⟨⟨fun j => if h : j.val < 11 then f ⟨j.val, h⟩ else ⟨0, by omega⟩,
    ⟨0, by omega⟩⟩, ?_⟩
  funext i
  have hi11 : i.val < 11 := i.isLt
  simp only [adminKeyOf, uuidDigit]
  split_ifs with h1 h2 <;> first
    | exact congrArg f (Fin.ext rfl)
    | omega

/-- How the create-room handler can touch the room registry: unchanged, or a
    `Map.set` of the new room id. -/
theorem createRoom_rooms_cases (now : Nat) (ip : String) (csrf : Option String)
    (hdrs : ReqHeaders) (rid akey : String) (st : ServerState) :
    (createRoomHandler now ip csrf hdrs rid akey st).2.rooms = st.rooms ∨
    ∃ room : Room, (createRoomHandler now ip csrf hdrs rid akey st).2.rooms =
      mapSet st.rooms rid room := by
  match csrf with
  | none => exact Or.inl rfl
  | some tok =>
    simp only [createRoomHandler]
    split
    · exact Or.inl rfl
    · split
      · exact Or.inl rfl
      · split
        · exact Or.inl rfl
        · split
          · exact Or.inl ((addSuspicious_keeps ip _).1)
          · split
            · exact Or.inl ((addSuspicious_keeps ip _).1)
            · split
              · exact Or.inl ((checkRateLimit_keeps now ip _).1)
              · split
                · exact Or.inl ((checkRateLimit_keeps now ip _).1)
                · split
                  · exact Or.inl ((checkRateLimit_keeps now ip _).1)
                  · refine Or.inr ⟨?_, ?_⟩
                    · exact
                        { id := rid, adminKey := akey, createdAt := now,
                          lastEmptyTime := some now, participants := [],
                          messages := [] }
                    · rw [(checkRateLimit_keeps now ip _).1]

/-- Counterexample to C9 as stated: the room id is `uuidv4().slice(0, 8)` —
    8 free hexadecimal digits, every combination of which is reachable
    (surjectivity), so room ids are drawn from a space of exactly
    `16 ^ 8 = 2 ^ 32` values, which is smaller than the claimed `2 ^ 40`. -/
theorem C9_roomid_space_counterexample :
    Function.Surjective roomIdOf ∧
    Fintype.card (Fin 8 → Fin 16) = 2 ^ 32 ∧ 2 ^ 32 < 2 ^ 40 := by
  refine ⟨roomIdOf_surjective, ?_, by norm_num⟩
  rw [Fintype.card_fun]
  simp only [Fintype.card_fin]
  norm_num

/-- C9 (amended): admin keys are drawn from a space of exactly
    `16 ^ 11 = 2 ^ 44 ≥ 2 ^ 40` values (11 free hex digits of
    `uuidv4().slice(0, 12)`), room ids from a space of exactly
    `16 ^ 8 = 2 ^ 32 < 2 ^ 40` values, and room ids stay unique as registry
    keys across the create-room handler (insertion overwrites on collision
    rather than rejecting). -/
theorem C9_identifier_spaces :
    Function.Surjective adminKeyOf ∧
    Fintype.card (Fin 11 → Fin 16) = 2 ^ 44 ∧ 2 ^ 40 ≤ 2 ^ 44 ∧
    Function.Surjective roomIdOf ∧
    Fintype.card (Fin 8 → Fin 16) = 2 ^ 32 ∧
    (∀ (now : Nat) (ip : String) (csrf : Option String) (hdrs : ReqHeaders)
        (rid akey : String) (st : ServerState),
      (keysOf st.rooms).Nodup →
      (keysOf (createRoomHandler now ip csrf hdrs rid akey st).2.rooms).Nodup) := by
  refine ⟨adminKeyOf_surjective, ?_, by norm_num, roomIdOf_surjective, ?_, ?_⟩
  · rw [Fintype.card_fun]
    simp only [Fintype.card_fin]
    norm_num
  · rw [Fintype.card_fun]
    simp only [Fintype.card_fin]
    norm_num
  · intro now ip csrf hdrs rid akey st hnodup
    rcases createRoom_rooms_cases now ip csrf hdrs rid akey st with h | ⟨room, h⟩
    · rw [h]; exact hnodup
    · rw [h]; exact nodup_keysOf_mapSet _ _ _ hnodup

/-- Witness for the amended C9: a concrete successful room creation keeps the
    registry's keys duplicate-free. -/
theorem C9_identifier_spaces_witness :
    (keysOf (createRoomHandler 10000 "1.2.3.4" (some "tok1")
        ⟨"Mozilla/5.0", "http://localhost:3000", "same-origin", "cors"⟩
        "r9" "a9" wState).2.rooms).Nodup :=
  C9_identifier_spaces.2.2.2.2.2 10000 "1.2.3.4" (some "tok1")
    ⟨"Mozilla/5.0", "http://localhost:3000", "same-origin", "cors"⟩
    "r9" "a9" wState (by decide)

/-! ### Claim C1 -/

/-- A connection is currently bound to room `R` according to the given
    connection registry. -/
def boundTo (clients : List (String × ClientEntry)) (R cid : String) : Prop :=
  ∃ c, mapGet clients cid = some c ∧ c.roomId = some R

/-- The roster invariant for a single-room trace on room `R`:
    (1) if `R` exists, its participant keys are exactly the connections bound
    to `R`, and every participant entry's `id` field equals its key;
    (2) every registered connection is bound to `R` or unbound. -/
def RosterInv (R : String) (st : ServerState) : Prop :=
  (∀ room, mapGet st.rooms R = some room →
    (∀ cid, (mapGet room.participants cid).isSome = true ↔
      boundTo st.clients R cid) ∧
    (∀ p ∈ room.participants, p.2.id = p.1)) ∧
  (∀ cid c, mapGet st.clients cid = some c → c.roomId = none ∨ c.roomId = some R)

/-- An event result has exact rosters when every participants-update in its
    outbox lists exactly the connections bound to `R` in the post-state. -/
def rosterExact (R : String) (res : ServerState × List (String × OutMsg)) : Prop :=
  ∀ tgt roster, (tgt, OutMsg.participantsUpdate roster) ∈ res.2 →
    ∀ cid, (∃ p ∈ roster, Participant.id p = cid) ↔ boundTo res.1.clients R cid

/-- Along a single-room trace (with fresh ids at connect events), after every
    event the broadcast rosters are exact. -/
def traceRosterOk (R : String) (st : ServerState) : List RoomEvent → Prop
  | [] => True
  | e :: rest =>
      goodEvent st e →
        rosterExact R (stepRoomEvent R st e) ∧
        traceRosterOk R (stepRoomEvent R st e).1 rest

theorem isSome_mapSet {β : Type} (m : List (String × β)) (k x : String) (v : β) :
    (mapGet (mapSet m k v) x).isSome = true ↔
      (x = k ∨ (mapGet m x).isSome = true) := by
  by_cases h : x = k
  · subst h
    simp [mapGet_set_self]
  · rw [mapGet_set_ne _ _ _ _ h]
    simp [h]

theorem isSome_mapDelete {β : Type} (m : List (String × β)) (k x : String) :
    (mapGet (mapDelete m k) x).isSome = true ↔
      (x ≠ k ∧ (mapGet m x).isSome = true) := by
  by_cases h : x = k
  · subst h
    simp [mapGet_delete_self]
  · rw [mapGet_delete_ne _ _ _ h]
    simp [h]

theorem boundTo_set_self (clients : List (String × ClientEntry)) (R cid : String)
    (c' : ClientEntry) :
    boundTo (mapSet clients cid c') R cid ↔ c'.roomId = some R := by
  unfold boundTo
  rw [mapGet_set_self]
  constructor
  · rintro ⟨c, hc, hr⟩
    rw [Option.some.inj hc]
    exact hr
  · intro h
    exact ⟨c', rfl, h⟩

theorem boundTo_set_ne (clients : List (String × ClientEntry)) (R cid x : String)
    (c' : ClientEntry) (hne : x ≠ cid) :
    boundTo (mapSet clients cid c') R x ↔ boundTo clients R x := by
  unfold boundTo
  rw [mapGet_set_ne _ _ _ _ hne]

theorem boundTo_delete_self (clients : List (String × ClientEntry)) (R cid : String) :
    ¬ boundTo (mapDelete clients cid) R cid := by
  unfold boundTo
  rw [mapGet_delete_self]
  rintro ⟨c, hc, _⟩
  exact Option.noConfusion hc

theorem boundTo_delete_ne (clients : List (String × ClientEntry)) (R cid x : String)
    (hne : x ≠ cid) :
    boundTo (mapDelete clients cid) R x ↔ boundTo clients R x := by
  unfold boundTo
  rw [mapGet_delete_ne _ _ _ hne]

theorem roster_mem_iff {parts : List (String × Participant)}
    (hids : ∀ p ∈ parts, p.2.id = p.1) (cid : String) :
    (∃ p ∈ valsOf parts, Participant.id p = cid) ↔
      (mapGet parts cid).isSome = true := by
  constructor
  · rintro ⟨p, hp, hpid⟩
    obtain ⟨a, ha⟩ := mem_valsOf.mp hp
    have hida : p.id = a := hids (a, p) ha
    rw [mapGet_isSome_iff]
    refine ⟨p, ?_⟩
    rw [← hpid, hida]
    exact ha
  · intro hsome
    obtain ⟨v, hv⟩ := (mapGet_isSome_iff _ _).mp hsome
    exact ⟨v, mem_valsOf.mpr ⟨cid, hv⟩, hids (cid, v) hv⟩

theorem ids_mapSet {parts : List (String × Participant)}
    (hids : ∀ p ∈ parts, p.2.id = p.1) (cid : String) (pt : Participant)
    (hpt : pt.id = cid) :
    ∀ p ∈ mapSet parts cid pt, p.2.id = p.1 := by
  intro p hp
  rcases mem_mapSet hp with h | h
  · rw [h]
    exact hpt
  · exact hids p h

theorem ids_mapDelete {parts : List (String × Participant)}
    (hids : ∀ p ∈ parts, p.2.id = p.1) (cid : String) :
    ∀ p ∈ mapDelete parts cid, p.2.id = p.1 :=
  fun p hp => hids p (List.mem_filter.mp hp).1

theorem mapGet_delete_eq_some {β : Type} {m : List (String × β)} {k x : String}
    {v : β} (h : mapGet (mapDelete m k) x = some v) : mapGet m x = some v := by
  by_cases hx : x = k
  · subst hx
    rw [mapGet_delete_self] at h
    exact Option.noConfusion h
  · rw [mapGet_delete_ne _ _ _ hx] at h
    exact h

/-- A fresh connect event preserves the roster invariant and broadcasts no
    roster. -/
theorem roster_step_connect (R cid : String) (st : ServerState)
    (hInv : RosterInv R st) (hg : mapGet st.clients cid = none) :
    RosterInv R (connectClient cid st).1 ∧ rosterExact R (connectClient cid st) := by
  obtain ⟨hInv1, hInv2⟩ := hInv
  simp only [connectClient, RosterInv, rosterExact]
  refine ⟨⟨?_, ?_⟩, ?_⟩
  · intro room hroom
    obtain ⟨hbnd, hids⟩ := hInv1 room hroom
    refine ⟨?_, hids⟩
    intro x
    by_cases hx : x = cid
    · subst hx
      rw [boundTo_set_self]
      constructor
      · intro hsome
        exfalso
        obtain ⟨c, hcx, _⟩ := (hbnd x).mp hsome
        rw [hg] at hcx
        exact Option.noConfusion hcx
      · intro h
        exact absurd h (by simp)
    · rw [boundTo_set_ne _ _ _ _ _ hx]
      exact hbnd x
  · intro x c hx
    by_cases hxc : x = cid
    · subst hxc
      rw [mapGet_set_self] at hx
      rw [← Option.some.inj hx]
      exact Or.inl rfl
    · rw [mapGet_set_ne _ _ _ _ hxc] at hx
      exact hInv2 x c hx
  · intro tgt roster hmem
    exfalso
    have := List.mem_singleton.mp hmem
    simp at this

/-- A join-room event for room `R` preserves the roster invariant and its
    participants-update broadcast is exact. -/
theorem roster_step_join (R cid nickname fresh : String) (now : Nat)
    (st : ServerState) (hInv : RosterInv R st) :
    RosterInv R (handleMessage cid (.joinRoom R nickname) fresh now st).1 ∧
    rosterExact R (handleMessage cid (.joinRoom R nickname) fresh now st) := by
  obtain ⟨hInv1, hInv2⟩ := hInv
  cases hc : mapGet st.clients cid with
  | none =>
    simp only [handleMessage, hc]
    refine ⟨⟨hInv1, hInv2⟩, ?_⟩
    intro tgt roster hmem
    simp at hmem
  | some c =>
    cases hr : mapGet st.rooms R with
    | none =>
      simp only [handleMessage, hc, hr]
      refine ⟨⟨hInv1, hInv2⟩, ?_⟩
      intro tgt roster hmem
      exfalso
      have := (mem_sendToClientOut hmem).1
      simp at this
    | some room =>
      obtain ⟨hbnd, hids⟩ := hInv1 room hr
      have hptid : (mkParticipant cid nickname fresh now).id = cid := rfl
      have hidsNew : ∀ p ∈ mapSet room.participants cid
          (mkParticipant cid nickname fresh now), p.2.id = p.1 :=
        ids_mapSet hids cid _ hptid
      have hbndNew : ∀ x, (mapGet (mapSet room.participants cid
            (mkParticipant cid nickname fresh now)) x).isSome = true ↔
          boundTo (mapSet st.clients cid
            { roomId := some R, nickname := some nickname,
              userKey := some fresh }) R x := by
        intro x
        by_cases hx : x = cid
        · subst hx
          rw [mapGet_set_self, boundTo_set_self]
          simp
        · rw [mapGet_set_ne _ _ _ _ hx, boundTo_set_ne _ _ _ _ _ hx]
          exact hbnd x
      simp only [handleMessage, hc, hr, RosterInv, rosterExact]
      refine ⟨⟨?_, ?_⟩, ?_⟩
      · intro room2 hroom2
        rw [mapGet_set_self] at hroom2
        rw [← Option.some.inj hroom2]
        exact ⟨hbndNew, hidsNew⟩
      · intro x cx hx
        by_cases hxc : x = cid
        · subst hxc
          rw [mapGet_set_self] at hx
          rw [← Option.some.inj hx]
          exact Or.inr rfl
        · rw [mapGet_set_ne _ _ _ _ hxc] at hx
          exact hInv2 x cx hx
      · intro tgt roster hmem
        rcases List.mem_append.mp hmem with hmem1 | hmem1
        · rcases List.mem_append.mp hmem1 with hmem2 | hmem2
          · exfalso
            have := (mem_sendToClientOut hmem2).1
            simp at this
          · exfalso
            have := (mem_broadcastOut hmem2).1
            simp at this
        · have hmsg := (mem_broadcastOut hmem1).1
          have hroster : roster = valsOf (mapSet room.participants cid
              (mkParticipant cid nickname fresh now)) :=
            OutMsg.participantsUpdate.inj hmsg
          subst hroster
          intro x
          rw [roster_mem_iff hidsNew x]
          exact hbndNew x

/-- A disconnect event preserves the roster invariant (for single-room
    traces) and its participants-update broadcast is exact. -/
theorem roster_step_disconnect (R cid : String) (now : Nat) (st : ServerState)
    (hInv : RosterInv R st) :
    RosterInv R (handleClose cid now st).1 ∧
    rosterExact R (handleClose cid now st) := by
  obtain ⟨hInv1, hInv2⟩ := hInv
  have hInvDel : RosterInv R { st with clients := mapDelete st.clients cid } ∧
      (boundTo st.clients R cid → False) →
      RosterInv R { st with clients := mapDelete st.clients cid } := fun h => h.1
  have hbndDel : ∀ (hnb : ¬ boundTo st.clients R cid),
      RosterInv R { st with clients := mapDelete st.clients cid } := by
    intro hnb
    refine ⟨?_, ?_⟩
    · intro room hroom
      obtain ⟨hbnd, hids⟩ := hInv1 room hroom
      refine ⟨?_, hids⟩
      intro x
      by_cases hx : x = cid
      · subst hx
        constructor
        · intro hsome
          exact absurd ((hbnd x).mp hsome) hnb
        · intro hb
          exact absurd hb (boundTo_delete_self _ _ _)
      · rw [boundTo_delete_ne _ _ _ _ hx]
        exact hbnd x
    · intro x cx hx
      exact hInv2 x cx (mapGet_delete_eq_some hx)
  cases hc : mapGet st.clients cid with
  | none =>
    simp only [handleClose, hc]
    refine ⟨hbndDel ?_, ?_⟩
    · rintro ⟨c, hcx, _⟩
      rw [hc] at hcx
      exact Option.noConfusion hcx
    · intro tgt roster hmem
      simp at hmem
  | some c =>
    cases hrid : c.roomId with
    | none =>
      simp only [handleClose, hc, hrid]
      refine ⟨hbndDel ?_, ?_⟩
      · rintro ⟨c2, hcx, hr2⟩
        rw [hc] at hcx
        rw [← Option.some.inj hcx] at hr2
        rw [hrid] at hr2
        exact Option.noConfusion hr2
      · intro tgt roster hmem
        simp at hmem
    | some rid =>
      have hridR : rid = R := by
        rcases hInv2 cid c hc with h | h
        · rw [hrid] at h
          exact Option.noConfusion h
        · rw [hrid] at h
          exact Option.some.inj h
      rw [hridR] at hrid
      cases hroom : mapGet st.rooms R with
      | none =>
        simp only [handleClose, hc, hrid, hroom]
        refine ⟨⟨?_, ?_⟩, ?_⟩
        · intro room2 hroom2
          rw [hroom] at hroom2
          exact Option.noConfusion hroom2
        · intro x cx hx
          exact hInv2 x cx (mapGet_delete_eq_some hx)
        · intro tgt roster hmem
          simp at hmem
      | some room =>
        obtain ⟨hbnd, hids⟩ := hInv1 room hroom
        have hidsNew : ∀ p ∈ mapDelete room.participants cid, p.2.id = p.1 :=
          ids_mapDelete hids cid
        have hbndNew : ∀ x, (mapGet (mapDelete room.participants cid) x).isSome
              = true ↔ boundTo (mapDelete st.clients cid) R x := by
          intro x
          by_cases hx : x = cid
          · subst hx
            rw [mapGet_delete_self]
            constructor
            · intro hsome
              simp at hsome
            · intro hb
              exact absurd hb (boundTo_delete_self _ _ _)
          · rw [mapGet_delete_ne _ _ _ hx, boundTo_delete_ne _ _ _ _ hx]
            exact hbnd x
        simp only [handleClose, hc, hrid, hroom, RosterInv, rosterExact]
        refine ⟨⟨?_, ?_⟩, ?_⟩
        · intro room2 hroom2
          rw [mapGet_set_self] at hroom2
          rw [← Option.some.inj hroom2]
          exact ⟨hbndNew, hidsNew⟩
        · intro x cx hx
          exact hInv2 x cx (mapGet_delete_eq_some hx)
        · intro tgt roster hmem
          rcases List.mem_append.mp hmem with hmem1 | hmem1
          · exfalso
            have := (mem_broadcastOut hmem1).1
            simp at this
          · have hmsg := (mem_broadcastOut hmem1).1
            have hroster : roster = valsOf (mapDelete room.participants cid) :=
              OutMsg.participantsUpdate.inj hmsg
            subst hroster
            intro x
            rw [roster_mem_iff hidsNew x]
            exact hbndNew x

/-- One single-room event preserves the invariant and broadcasts exact
    rosters. -/
theorem roster_step (R : String) (st : ServerState) (e : RoomEvent)
    (hInv : RosterInv R st) (hg : goodEvent st e) :
    RosterInv R (stepRoomEvent R st e).1 ∧ rosterExact R (stepRoomEvent R st e) := by
  cases e with
  | connect cid => exact roster_step_connect R cid st hInv hg
  | join cid nickname fresh now =>
    exact roster_step_join R cid nickname fresh now st hInv
  | disconnect cid now => exact roster_step_disconnect R cid now st hInv

/-- C1: for every sequence of connect / join-room / disconnect events on one
    room (connect events use fresh ids, as `uuidv4()` guarantees), starting
    from any state satisfying the roster invariant — e.g. a freshly created
    room with no connections — the participants-update roster broadcast after
    each event lists exactly the set of connections currently bound to that
    room: no ghosts, no omissions. -/
theorem C1_roster_exact (R : String) (evs : List RoomEvent) (st : ServerState)
    (hInv : RosterInv R st) : traceRosterOk R st evs := by
  induction evs generalizing st with
  | nil => trivial
  | cons e rest ih =>
    intro hg
    obtain ⟨hInv2, hex⟩ := roster_step R st e hInv hg
    exact ⟨hex, ih _ hInv2⟩

/-- The freshly created room for the C1 witness. -/
def wC1Room : Room :=
  { id := "r", adminKey := "k", createdAt := 0, lastEmptyTime := some 1,
    participants := [], messages := [] }

/-- The C1 witness start state: one empty room, no connections. -/
def wC1State : ServerState :=
  { rooms := [("r", wC1Room)], clients := [], rateLimit := [],
    suspiciousIPs := [], suspTimers := [], csrfTokens := [], csrfTimers := [],
    globalRoomCreations := [] }

/-- Witness for C1: a concrete five-event single-room trace (two joins and a
    disconnect) from the fresh state has exact rosters throughout. -/
theorem C1_roster_exact_witness :
    traceRosterOk "r" wC1State
      [RoomEvent.connect "c1", RoomEvent.join "c1" "alice" "k1" 5,
       RoomEvent.connect "c2", RoomEvent.join "c2" "bob" "k2" 6,
       RoomEvent.disconnect "c1" 7] :=
  C1_roster_exact "r" _ wC1State (by
    constructor
    · intro room hroom
      have hre : room = wC1Room := by
        rw [show mapGet wC1State.rooms "r" = some wC1Room from rfl] at hroom
        exact (Option.some.inj hroom).symm
      subst hre
      constructor
      · intro cid
        constructor
        · intro hsome
          simp [wC1Room, mapGet] at hsome
        · rintro ⟨c, hcx, _⟩
          simp [wC1State, mapGet] at hcx
      · intro p hp
        simp [wC1Room] at hp
    · intro cid c hx
      simp [wC1State, mapGet] at hx)

end XioVoice
